import Mathlib

/-!
Verification development for the Smart Media Sampler
(`Smart_Media_Sampler.py`): a shallow embedding of its pure core and of
the filesystem-facing operations, with the filesystem inputs (directory
listings, cache contents, the destination disk, resume state) and the
random sources injected as parameters.  Paths are modelled as lists of
components; strings of the program are Lean `String`s, with the handful
of Python `str` primitives the program uses re-implemented structurally
below so that every definition evaluates by `decide`/`rfl`.
-/

deriving instance DecidableEq for Except

namespace SMS

/-! ### String primitives used by the program -/

/-- Whitespace characters stripped by Python `str.strip()`. -/
def isSpace (c : Char) : Bool :=
  decide (c = ' ' ∨ c = '\t' ∨ c = '\n' ∨ c = '\r')

/-- Python `str.strip()`: drop whitespace from both ends. -/
def strTrim (s : String) : String :=
  (((s.toList.dropWhile isSpace).reverse.dropWhile isSpace).reverse).asString

/-- Python `str.upper()` (ASCII, which is all the program feeds it). -/
def strToUpper (s : String) : String :=
  (s.toList.map Char.toUpper).asString

/-- Python `str.lower()` (ASCII, which is all the program feeds it). -/
def strToLower (s : String) : String :=
  (s.toList.map Char.toLower).asString

/-- Python `str.endswith(sfx)`. -/
def strEndsWith (s sfx : String) : Bool :=
  decide (s.toList.drop (s.toList.length - sfx.toList.length) = sfx.toList)

/-- Python `s[:-n]` for `0 < n ≤ len(s)`: drop the last `n` characters. -/
def strDropRight (s : String) (n : Nat) : String :=
  (s.toList.take (s.toList.length - n)).asString

/-- Decimal digit character. -/
def digitCh (n : Nat) : Char :=
  Char.ofNat (48 + n)

/-- Structural worker for `natChars`; the fuel argument dominates the
number of digits so that the definition reduces in the kernel. -/
def natCharsAux : Nat → Nat → List Char
  | 0, _ => []
  | fuel + 1, n =>
    if n < 10 then [digitCh (n % 10)]
    else natCharsAux fuel (n / 10) ++ [digitCh (n % 10)]

/-- Decimal representation of a natural number as a character list,
modelling the Python formatted output of an `int` (such as the collision
counter interpolated by the f-string in `copy_single_file`). -/
def natChars (n : Nat) : List Char :=
  natCharsAux (n + 1) n

/-- Decimal string of a natural number. -/
def natStr (n : Nat) : String :=
  (natChars n).asString

/-- Numeric value of a list of decimal digit characters. -/
def digitsToNat (cs : List Char) : Nat :=
  cs.foldl (fun a c => 10 * a + (c.toNat - 48)) 0

/-! ### Paths

A filesystem path is modelled as its list of components from the root.
The program uses `Path.name`, `Path.parent`, `/`, `Path.stem` and
`Path.suffix`; the last two split the final component at its last dot,
which pathlib does only when that dot is neither the first nor the last
character of the name. -/

/-- A filesystem path as its list of components. -/
abbrev MPath := List String

/-- Split a character list at its last dot: the part strictly before it,
and the part from the dot (inclusive); `none` when there is no dot. -/
def splitLastDot : List Char → Option (List Char × List Char)
  | [] => none
  | c :: cs =>
    match splitLastDot cs with
    | some (st, sf) => some (c :: st, sf)
    | none => if c = '.' then some ([], c :: cs) else none

/-- Pathlib's `(stem, suffix)` of a filename: split at the last dot when
`0 < i < len(name) - 1` for its index `i`, otherwise the suffix is empty. -/
def stemAndSuffix (name : String) : String × String :=
  match splitLastDot name.toList with
  | some (st, sf) =>
    if st = [] ∨ sf.length ≤ 1 then (name, "")
    else (st.asString, sf.asString)
  | none => (name, "")

/-- `Path.name`: the final component. -/
def pathName (p : MPath) : String :=
  p.getLastD ""

/-- `Path.parent`: the path without its final component. -/
def pathParent (p : MPath) : MPath :=
  p.dropLast

/-- `path / s`: append one component. -/
def pathChild (p : MPath) (s : String) : MPath :=
  p ++ [s]

/-- `Path.stem` of the final component. -/
def pathStem (p : MPath) : String :=
  (stemAndSuffix (pathName p)).1

/-- `Path.suffix` of the final component (for example ".jpg"). -/
def pathSuffix (p : MPath) : String :=
  (stemAndSuffix (pathName p)).2

/-! ### SizeParser (`parse_size`, lines 169-192)

Python `float()` on the decimal literals this program can feed it is
modelled exactly, as a scaled integer `mantissa / 10 ^ scale` (on the
short decimal numerals of interest, the float product with a power-of-two
multiplier followed by `int()` truncation is exact, so the model and the
float computation agree; exponent notation and the float specials are
treated as parse failures, since well-formed size strings never produce
them). -/

/-- An exact decimal value `mantissa / 10 ^ scale`. -/
structure DecValue where
  mantissa : Int
  scale : Nat
deriving DecidableEq

/-- Python `float(s)` on plain decimal literals: optional sign, an integer
part and an optional fractional part, at least one digit overall. -/
def parseFloat (s : String) : Option DecValue :=
  let cs := (strTrim s).toList
  let sign : Int := if cs.headD ' ' = '-' then -1 else 1
  let cs := if cs.headD ' ' = '-' ∨ cs.headD ' ' = '+' then cs.tail else cs
  let intPart := cs.takeWhile Char.isDigit
  let rest := cs.dropWhile Char.isDigit
  match rest with
  | [] =>
    if intPart = [] then none
    else some { mantissa := sign * digitsToNat intPart, scale := 0 }
  | '.' :: fracPart =>
    if fracPart.all Char.isDigit ∧ (intPart ≠ [] ∨ fracPart ≠ []) then
      let m : Int := digitsToNat intPart * 10 ^ fracPart.length + digitsToNat fracPart
      some { mantissa := sign * m, scale := fracPart.length }
    else none
  | _ => none

/-- Python `int(s)` on a string: optional sign and decimal digits. -/
def parseIntStr (s : String) : Option Int :=
  let cs := (strTrim s).toList
  let sign : Int := if cs.headD ' ' = '-' then -1 else 1
  let ds := if cs.headD ' ' = '-' ∨ cs.headD ' ' = '+' then cs.tail else cs
  if ds ≠ [] ∧ ds.all Char.isDigit then some (sign * digitsToNat ds) else none

/-- Python `int(number * multiplier)` for a parsed decimal `number`: the
exact product, truncated toward zero (`Int.tdiv` truncates toward
zero, as Python `int()` does on a float). -/
def truncScaled (v : DecValue) (mult : Int) : Int :=
  Int.tdiv (v.mantissa * mult) (10 ^ v.scale)

/-- The multiplier table of `parse_size`, in the insertion order of the
Python dict — which is also the iteration order of its suffix loop. -/
def multipliers : List (String × Int) :=
  [("B", 1), ("KB", 1024), ("MB", 1024 ^ 2), ("GB", 1024 ^ 3), ("TB", 1024 ^ 4)]

/-- The body of `parse_size` up to its invalid-format warning: the first
suffix of the table that matches is tried; if its numeric part fails to
parse the loop breaks to the plain-integer fallback; `none` models the
warning branch (`Invalid size format`). -/
def parse_size_core (s : String) : Option Int :=
  let size_str := strToUpper (strTrim s)
  match multipliers.find? (fun sm => strEndsWith size_str sm.1) with
  | some (sfx, mult) =>
    match parseFloat (strDropRight size_str sfx.length) with
    | some number => some (truncScaled number mult)
    | none => parseIntStr size_str
  | none => parseIntStr size_str

/-- `parse_size`: size string to bytes; the warning branch returns 0. -/
def parse_size (s : String) : Int :=
  (parse_size_core s).getD 0

/-! ### Inventory (`collect_media_files_optimized` / `get_media_metadata`) -/

/-- `self.media_extensions` (lines 47-51). -/
def media_extensions : List String :=
  [".jpg", ".jpeg", ".png", ".gif", ".mp4", ".bmp", ".tiff", ".webp",
   ".mov", ".avi", ".mkv", ".webm", ".m4v", ".flv",
   ".svg", ".ico", ".heic", ".heif"]

/-- The image extensions tested by `get_media_metadata` (line 119). -/
def imageExts : List String :=
  [".jpg", ".jpeg", ".png", ".bmp", ".tiff", ".webp"]

/-- The video extensions tested by `get_media_metadata` (line 122). -/
def videoExts : List String :=
  [".mp4", ".mov", ".avi", ".mkv", ".webm", ".m4v", ".flv"]

/-- `get_media_metadata` (114-130): the `type` field derived from the
extension.  The embedded computation is pure, so the `except` branch that
would yield "unknown" is unreachable. -/
def get_media_metadata (file_path : MPath) : String :=
  if strToLower (pathSuffix file_path) ∈ imageExts then "image"
  else if strToLower (pathSuffix file_path) ∈ videoExts then "video"
  else "other"

/-- One `file_info` record as built by the scanning loop.  Timestamps are
abstract integers ordered like datetimes; `ftype` models the `type` key. -/
structure FileData where
  path : MPath
  size : Nat
  created : Int
  modified : Int
  extension : String
  ftype : String
deriving DecidableEq

/-- One regular file as the recursive walk (`folder.rglob`) reports it:
the path and the stat fields the scanner reads. -/
structure RawFile where
  path : MPath
  size : Nat
  created : Int
  modified : Int
deriving DecidableEq

/-- The in-memory core of the scanning loop (lines 81-95): keep the files
whose lowercased extension is a known media extension and build their
`file_info` records.  The filesystem walk itself is I/O; its result is
the `listing` input. -/
def scanListing (listing : List RawFile) : List FileData :=
  (listing.filter (fun r => decide (strToLower (pathSuffix r.path) ∈ media_extensions))).map
    (fun r =>
      { path := r.path, size := r.size, created := r.created,
        modified := r.modified,
        extension := strToLower (pathSuffix r.path),
        ftype := get_media_metadata r.path })

/-! ### Filter (`apply_filters`, lines 132-167) -/

/-- `datetime.strptime(s, "%Y-%m-%d")`, valued as an abstract ordered
timestamp; `none` models the `ValueError` it raises on a malformed date. -/
def parseDate (s : String) : Option Int :=
  match (s.toList.splitOn '-').map List.asString with
  | [y, m, d] =>
    if y.toList ≠ [] ∧ y.toList.all Char.isDigit ∧ y.length = 4 ∧
        m.toList ≠ [] ∧ m.toList.all Char.isDigit ∧
        d.toList ≠ [] ∧ d.toList.all Char.isDigit ∧
        1 ≤ digitsToNat m.toList ∧ digitsToNat m.toList ≤ 12 ∧
        1 ≤ digitsToNat d.toList ∧ digitsToNat d.toList ≤ 31 then
      some (digitsToNat y.toList * 10000 + digitsToNat m.toList * 100 +
        digitsToNat d.toList)
    else none
  | _ => none

/-- The `filters` dict.  `none` models an absent key; the code treats a
present but falsy value (empty string, empty list) like an absent one. -/
structure Filters where
  min_size : Option String := none
  max_size : Option String := none
  date_from : Option String := none
  date_to : Option String := none
  file_types : Option (List String) := none
  media_types : Option (List String) := none
deriving DecidableEq

/-- Python truthiness of an optional string value of the dict. -/
def strTruthy (o : Option String) : Bool :=
  decide (o.getD "" ≠ "")

/-- Python truthiness of an optional list value of the dict. -/
def listTruthy (o : Option (List String)) : Bool :=
  decide (o.getD [] ≠ [])

/-- Lines 140-142: the minimum-size filter stanza. -/
def minSizeStep (f : Filters) (l : List FileData) : List FileData :=
  if strTruthy f.min_size then
    l.filter (fun fd => decide (parse_size (f.min_size.getD "") ≤ (fd.size : Int)))
  else l

/-- Lines 144-146: the maximum-size filter stanza. -/
def maxSizeStep (f : Filters) (l : List FileData) : List FileData :=
  if strTruthy f.max_size then
    l.filter (fun fd => decide ((fd.size : Int) ≤ parse_size (f.max_size.getD "")))
  else l

/-- Lines 149-151: the from-date stanza; `strptime` raises on a malformed
date. -/
def dateFromStep (f : Filters) (l : List FileData) : Except Unit (List FileData) :=
  if strTruthy f.date_from then
    match parseDate (f.date_from.getD "") with
    | none => .error ()
    | some t => .ok (l.filter (fun fd => decide (t ≤ fd.modified)))
  else .ok l

/-- Lines 153-155: the to-date stanza. -/
def dateToStep (f : Filters) (l : List FileData) : Except Unit (List FileData) :=
  if strTruthy f.date_to then
    match parseDate (f.date_to.getD "") with
    | none => .error ()
    | some t => .ok (l.filter (fun fd => decide (fd.modified ≤ t)))
  else .ok l

/-- Lines 158-160: the extension-set stanza. -/
def fileTypeStep (f : Filters) (l : List FileData) : List FileData :=
  if listTruthy f.file_types then
    l.filter (fun fd => decide (fd.extension ∈ f.file_types.getD []))
  else l

/-- Lines 163-165: the media-type stanza. -/
def mediaTypeStep (f : Filters) (l : List FileData) : List FileData :=
  if listTruthy f.media_types then
    l.filter (fun fd => decide (fd.ftype ∈ f.media_types.getD []))
  else l

/-- `apply_filters` (132-167).  `Except.error` models the uncaught
`ValueError` raised by `strptime` on a malformed date filter; the size
filters never raise (`parse_size` catches its own errors). -/
def apply_filters (files_data : List FileData) (filters : Option Filters) :
    Except Unit (List FileData) :=
  match filters with
  | none => .ok files_data
  | some f =>
    match dateFromStep f (maxSizeStep f (minSizeStep f files_data)) with
    | .error e => .error e
    | .ok l3 =>
      match dateToStep f l3 with
      | .error e => .error e
      | .ok l4 => .ok (mediaTypeStep f (fileTypeStep f l4))

/-! ### Selector: `select_by_total_size` (lines 257-295) -/

/-- The keys of the `defaultdict` grouping of lines 263-266, in insertion
order: the distinct immediate parent folders of the input entries, in
order of first occurrence. -/
def folderKeys (files_data : List FileData) : List MPath :=
  files_data.foldl
    (fun acc fd => if pathParent fd.path ∈ acc then acc else acc ++ [pathParent fd.path]) []

/-- The group of one key: the entries whose parent folder is `folder`,
in input order. -/
def folderGroup (files_data : List FileData) (folder : MPath) : List FileData :=
  files_data.filter (fun fd => decide (pathParent fd.path = folder))

/-- Stable insertion of an entry after all entries of size at most its
own. -/
def insertBySize (fd : FileData) : List FileData → List FileData
  | [] => [fd]
  | x :: xs => if x.size ≤ fd.size then x :: insertBySize fd xs else fd :: x :: xs

/-- `sorted(files, key=lambda x: x["size"])`.  Python's sort is stable, and
every stable sort computes the same function; this is the stable
insertion sort. -/
def sortBySize (files : List FileData) : List FileData :=
  files.foldl (fun acc fd => insertBySize fd acc) []

/-- The greedy accumulation loop shared by both branches of
`select_by_total_size` (lines 271-280 per folder, lines 288-293 global):
add an entry while the running total stays within the budget, and break
as soon as the total reaches the budget. -/
def sizeGreedy (budget : Int) : List FileData → Int → List FileData
  | [], _ => []
  | fd :: rest, acc =>
    let sel1 : List FileData := if acc + (fd.size : Int) ≤ budget then [fd] else []
    let acc1 : Int := if acc + (fd.size : Int) ≤ budget then acc + (fd.size : Int) else acc
    if budget ≤ acc1 then sel1
    else sel1 ++ sizeGreedy budget rest acc1

/-- `select_by_total_size`.  The balanced branch divides the target by the
number of parent-folder groups; with an empty input there are no groups
and Python raises `ZeroDivisionError`, modelled as `none`.  The
`random.shuffle` of the unbalanced branch is the injected `shuffle`. -/
def select_by_total_size (files_data : List FileData) (target_size_str : String)
    (balanced : Bool) (shuffle : List FileData → List FileData) :
    Option (List FileData) :=
  let target_bytes := parse_size target_size_str
  if balanced then
    let keys := folderKeys files_data
    if keys = [] then none
    else
      let size_per_folder := Int.fdiv target_bytes keys.length
      some (keys.flatMap
        (fun k => sizeGreedy size_per_folder (sortBySize (folderGroup files_data k)) 0))
  else
    some (sizeGreedy target_bytes (shuffle files_data) 0)

/-- The claim's balanced-by-size selector, stated from the claim's words
for comparison with the source's `select_by_total_size`: the share is the
target divided by the number of GIVEN SOURCE DIRECTORIES (integer
division, remainder never distributed), and within each source directory
the entries below it (its directory components are a prefix of the
entry's path) are taken in ascending size order while that directory's
running total stays at most its share. -/
def select_by_total_size_claim (source_dirs : List MPath)
    (files_data : List FileData) (target_size_str : String) : List FileData :=
  let target_bytes := parse_size target_size_str
  let share := Int.fdiv target_bytes source_dirs.length
  source_dirs.flatMap (fun d =>
    sizeGreedy share
      (sortBySize (files_data.filter
        (fun fd => decide (List.take d.length fd.path = d)))) 0)

/-! ### Selector: balanced selection by count (lines 610-628) -/

/-- The balanced pass (lines 612-621): fold over the per-folder lists with
the remainder counter; a non-empty folder contributes a sample of size
`min(files_per_folder + (1 if remaining > 0 else 0), len(files))` and
consumes one unit of the remainder.  `sample` models `random.sample`. -/
def balancedPass (sample : List FileData → Nat → List FileData)
    (files_per_folder : Nat) : List (List FileData) → Nat → List FileData
  | [], _ => []
  | files :: rest, remaining =>
    if files ≠ [] then
      sample files (min (files_per_folder + (if 0 < remaining then 1 else 0)) files.length) ++
        balancedPass sample files_per_folder rest
          (remaining - (if 0 < remaining then 1 else 0))
    else balancedPass sample files_per_folder rest remaining

/-- The top-up pass (lines 623-628): when the balanced pass fell short of
`num_files`, sample the shortfall from the still-unselected union. -/
def topUp (sample : List FileData → Nat → List FileData)
    (all_files selected : List FileData) (num_files : Nat) : List FileData :=
  if selected.length < num_files then
    let remaining_files := all_files.filter (fun fd => decide (fd ∉ selected))
    if remaining_files ≠ [] then
      selected ++
        sample remaining_files (min (num_files - selected.length) remaining_files.length)
    else selected
  else selected

/-- Balanced selection by count: the balanced pass over the per-folder
lists (one list per source folder, so the divisor `len(source_folders)`
of line 613 equals `folder_files.length`) followed by the top-up. -/
def balanced_select_by_count (sample : List FileData → Nat → List FileData)
    (folder_files : List (List FileData)) (all_files : List FileData)
    (num_files : Nat) : List FileData :=
  topUp sample all_files
    (balancedPass sample (num_files / folder_files.length) folder_files
      (num_files % folder_files.length))
    num_files

/-! ### CopyEngine (`copy_files_parallel`, lines 297-380)

Worker completions are sequentialized in submission order: the claims
settled here are about the input/output behaviour of the engine, and this
is one of its possible schedules. -/

/-- Filesystem side effects other than reads.  `cacheWrite` is the scan
cache of a source folder; the rest touch destination state. -/
inductive Effect where
  | cacheWrite (folder : MPath)
  | mkdirEff (p : MPath)
  | copyEff (src dest : MPath)
  | logWrite (p : MPath)
  | resumeWrite (p : MPath)
  | resumeDelete (p : MPath)
deriving DecidableEq

/-- `get_destination_path` (382-399).  The directory creation it performs
when preserving structure is re-created by the parent `mkdir` of
`copy_single_file` (line 334); the path computation itself is pure. -/
def get_destination_path (file_path : MPath) (dest_path : MPath)
    (preserve_structure : Bool) (all_selected_files : List FileData) : MPath :=
  if preserve_structure then
    match all_selected_files.find? (fun fd => decide (fd.path = file_path)) with
    | some fd =>
      let source_folder := pathName (pathParent fd.path)
      if source_folder ≠ "" then
        pathChild (pathChild dest_path source_folder) (pathName file_path)
      else pathChild dest_path (pathName file_path)
    | none => pathChild dest_path (pathName file_path)
  else pathChild dest_path (pathName file_path)

/-- The renamed candidate of one round of the conflict loop:
`parent / f"{stem}_{counter}{suffix}"`. -/
def renamedPath (origParent : MPath) (stem sfx : String) (counter : Nat) : MPath :=
  pathChild origParent (stem ++ "_" ++ natStr counter ++ sfx)

/-- The filename-conflict loop of `copy_single_file` (lines 337-343):
while the candidate exists on disk, move to `stem_counter ++ suffix` in
the original destination's directory.  `fuel` bounds the search; callers
pass `disk.length + 2`, which always suffices (see
`conflictLoop_isSome`). -/
def conflictLoop (disk : List MPath) (origParent : MPath) (stem sfx : String) :
    MPath → Nat → Nat → Option MPath
  | _, _, 0 => none
  | dest, counter, fuel + 1 =>
    if dest ∈ disk then
      conflictLoop disk origParent stem sfx
        (renamedPath origParent stem sfx counter) (counter + 1) fuel
    else some dest

/-- `copy_single_file` (328-349) against a given disk: resolve the
destination and rename around conflicts; returns the path written. -/
def copy_single_file (selected_files : List FileData) (dest_path : MPath)
    (preserve_structure : Bool) (disk : List MPath) (fd : FileData) : Option MPath :=
  let dest_file := get_destination_path fd.path dest_path preserve_structure selected_files
  conflictLoop disk (pathParent dest_file) (pathStem dest_file) (pathSuffix dest_file)
    dest_file 1 (disk.length + 2)

/-- State threaded through the sequentialized completion loop of
`copy_files_parallel` (lines 352-378). -/
structure CopyState where
  disk : List MPath
  copied_files : List MPath
  copied_count : Nat
  written : List MPath
  errors : List String
  effects : List Effect
  idx : Nat
deriving DecidableEq

/-- The periodic checkpoint of lines 366-378: when the completion index
hits the period (or the final completion) and a resume path is set, the
resume state is saved; only the effect log changes. -/
def resumeNote (resume_file : Option MPath) (cond : Bool) (st : CopyState) :
    CopyState :=
  if cond then
    match resume_file with
    | some r => { st with effects := st.effects ++ [.resumeWrite r] }
    | none => st
  else st

/-- One completion of the loop body (lines 356-378): record the written
path (or the error), and save the resume state every 10 completions and
after the last one. -/
def copyLoop (selected_files : List FileData) (dest_path : MPath)
    (preserve_structure : Bool) (resume_file : Option MPath) (total : Nat) :
    List FileData → CopyState → CopyState
  | [], st => st
  | fd :: rest, st =>
    let st1 : CopyState :=
      match copy_single_file selected_files dest_path preserve_structure st.disk fd with
      | some d =>
        { st with
          disk := st.disk ++ [d], copied_files := st.copied_files.insert d,
          copied_count := st.copied_count + 1, written := st.written ++ [d],
          effects := st.effects ++ [.mkdirEff (pathParent d), .copyEff fd.path d] }
      | none => { st with errors := st.errors ++ ["Error copying"] }
    let st2 := resumeNote resume_file
      (decide ((st.idx + 1) % 10 = 0 ∨ st.idx + 1 = total)) st1
    copyLoop selected_files dest_path preserve_structure resume_file total rest
      { st2 with idx := st.idx + 1 }

/-- The result of `copy_files_parallel`.  The Python function returns only
`(copied_count, errors)`; the other fields are model state: the disk
after the run, the destination paths this run wrote, the work list it
computed, and the side effects it performed. -/
structure CopyRunResult where
  copied_count : Nat
  errors : List String
  disk : List MPath
  written : List MPath
  remaining : List FileData
  effects : List Effect
deriving DecidableEq

/-- `copy_files_parallel` (297-380).  `resume_loaded` is the
`copied_files` list of a resume state found on disk (`none` when the
resume file does not exist or fails to load); the loaded list becomes a
Python `set`, modelled by deduplication.  An entry is dropped from the
work list when its resolved destination is in that set or already exists
on disk (line 316). -/
def copy_files_parallel (selected_files : List FileData)
    (destination_folder : MPath) (preserve_structure : Bool)
    (resume_loaded : Option (List MPath)) (resume_file : Option MPath)
    (disk : List MPath) : CopyRunResult :=
  let copied0 := (resume_loaded.getD []).dedup
  let remaining := selected_files.filter (fun fd =>
    decide (get_destination_path fd.path destination_folder preserve_structure selected_files ∉ copied0 ∧
      get_destination_path fd.path destination_folder preserve_structure selected_files ∉ disk))
  if remaining = [] then
    { copied_count := selected_files.length, errors := [], disk := disk,
      written := [], remaining := [], effects := [.mkdirEff destination_folder] }
  else
    let st := copyLoop selected_files destination_folder preserve_structure
      resume_file remaining.length remaining
      { disk := disk, copied_files := copied0, copied_count := copied0.length,
        written := [], errors := [], effects := [.mkdirEff destination_folder],
        idx := 0 }
    { copied_count := st.copied_count, errors := st.errors, disk := st.disk,
      written := st.written, remaining := remaining, effects := st.effects }


/-- `save_selection_log` (401-418): the `files` field of the log written
to `<destination>/selection_log.json` — built from the selected entries'
source paths. -/
def selection_log_files (selected_files : List FileData) : List MPath :=
  selected_files.map (·.path)

/-- The effect of one `shutil.copy2(src, dest)` (line 345) on a
content-tracking view of the destination disk: each entry pairs a
destination path with the source path whose bytes it holds, and `copy2`
replaces any existing file at `dest`.  Used to follow an interleaving of
the unsynchronized exists-then-copy of `copy_single_file` across pool
workers, where the exists checks of lines 337-343 of two workers can both
run before either copy. -/
def diskWrite (disk : List (MPath × MPath)) (src dest : MPath) :
    List (MPath × MPath) :=
  (disk.filter (fun pr => decide (pr.1 ≠ dest))) ++ [(dest, src)]

/-! ### `collect_media_files_optimized` (55-112) and the top-level
`randomly_select_and_copy_files` (530-687) -/

/-- What `collect_media_files_optimized` reads from the filesystem for one
folder: whether the folder exists and is a directory, the cached raw
entry list when a valid readable cache is present, and the walk listing.
A directory-level walk failure behaves like a missing folder (returns
`[]` without a cache write) and is covered by `valid := false`. -/
structure FolderFS where
  valid : Bool
  cached : Option (List FileData)
  listing : List RawFile

/-- `collect_media_files_optimized`: on a valid cache hit feed the cached
raw entries through the filters; otherwise scan, cache the unfiltered
result when caching is on, and filter. -/
def collect_media_files_optimized (fs : FolderFS) (folder : MPath)
    (filters : Option Filters) (use_cache : Bool) :
    Except Unit (List FileData) × List Effect :=
  if fs.valid = false then (.ok [], [])
  else if use_cache then
    match fs.cached with
    | some cached_files => (apply_filters cached_files filters, [])
    | none => (apply_filters (scanListing fs.listing) filters, [.cacheWrite folder])
  else (apply_filters (scanListing fs.listing) filters, [])

/-- The two ways `randomly_select_and_copy_files` can die with an uncaught
exception in the embedded fragment: a filter `ValueError` surfacing from
the scan phase, or the `ZeroDivisionError` of the balanced-by-size
split. -/
inductive RunError where
  | scanRaise
  | divByZero
deriving DecidableEq

/-- `randomly_select_and_copy_files` (530-687).  Filesystem reads are
injected (`folderFS`, `dest_exists`, `disk`, `resume_loaded`), and so are
the random sources: `sample` models every `random.sample` call site and
`shuffle` the `random.shuffle` of unbalanced-by-size selection.  Returns
the Python return value (or the uncaught exception) together with every
side effect performed, in order. -/
def randomly_select_and_copy_files
    (source_folders : List MPath) (folderFS : MPath → FolderFS)
    (destination_folder : MPath) (dest_exists : Bool) (disk : List MPath)
    (resume_loaded : Option (List MPath)) (num_files : Nat)
    (target_size : Option String) (balanced : Bool) (dry_run : Bool)
    (preserve_structure : Bool) (filters : Option Filters)
    (resume_file : Option MPath) (use_cache : Bool)
    (sample : List FileData → Nat → List FileData)
    (shuffle : List FileData → List FileData) :
    Except RunError Nat × List Effect :=
  let effs0 : List Effect :=
    if dest_exists = false ∧ dry_run = false then [.mkdirEff destination_folder] else []
  let rf := resume_file.getD (pathChild destination_folder "operation_resume.json")
  let scans := source_folders.map
    (fun f => collect_media_files_optimized (folderFS f) f filters use_cache)
  let effs1 := effs0 ++ (scans.map Prod.snd).flatten
  if (scans.map Prod.fst).any (fun r => match r with | .error _ => true | .ok _ => false) then
    (.error .scanRaise, effs1)
  else
    let folder_files := scans.map (fun s => match s.1 with | .ok l => l | .error _ => [])
    let all_files_data := folder_files.flatten
    if all_files_data.length = 0 then (.ok 0, effs1)
    else
      let selectedE : Except RunError (List FileData) :=
        match target_size with
        | some ts =>
          match select_by_total_size all_files_data ts balanced shuffle with
          | none => .error .divByZero
          | some sel => .ok sel
        | none =>
          let n := min num_files all_files_data.length
          if balanced ∧ 0 < source_folders.length then
            .ok (balanced_select_by_count sample folder_files all_files_data n)
          else .ok (sample all_files_data n)
      match selectedE with
      | .error e => (.error e, effs1)
      | .ok selected_files =>
        if dry_run then (.ok selected_files.length, effs1)
        else
          let run := copy_files_parallel selected_files destination_folder
            preserve_structure resume_loaded (some rf) disk
          let effs2 := effs1 ++ run.effects ++
            [.logWrite (pathChild destination_folder "selection_log.json")]
          let effs3 :=
            if run.errors = [] ∧
                (resume_loaded ≠ none ∨
                  run.effects.any (fun e => decide (e = Effect.resumeWrite rf))) then
              effs2 ++ [.resumeDelete rf]
            else effs2
          (.ok run.copied_count, effs3)

/-! ### Concrete fixtures used by witnesses and counterexamples -/

/-- A 1-byte image under source folder `src`. -/
def exSrcA : FileData :=
  { path := ["src", "a.jpg"], size := 1, created := 0, modified := 0,
    extension := ".jpg", ftype := "image" }

/-- A 2-byte image under source folder `other`, with the same basename as
`exSrcA`. -/
def exOtherA : FileData :=
  { path := ["other", "a.jpg"], size := 2, created := 0, modified := 0,
    extension := ".jpg", ftype := "image" }

/-- Ten 1-byte images under source folder `b`. -/
def exPoolB : List FileData :=
  (List.range 10).map (fun i =>
    { path := ["b", natStr i ++ ".jpg"], size := 1, created := 0, modified := 0,
      extension := ".jpg", ftype := "image" })

/-- A deterministic instance of `random.sample`: the first `k` elements.
Any run of the Python sampler can return this sample. -/
def takeSample (l : List FileData) (k : Nat) : List FileData :=
  l.take k

/-- A raw walk entry for a gif file. -/
def exGifRaw : RawFile :=
  { path := ["s", "a.gif"], size := 1, created := 0, modified := 0 }

/-- A raw walk entry for a jpg file under `src`. -/
def exRawA : RawFile :=
  { path := ["src", "a.jpg"], size := 1, created := 0, modified := 0 }

/-- A per-folder filesystem view: the folder exists, no valid cache, and
the walk finds exactly `exRawA`. -/
def exFS : FolderFS :=
  { valid := true, cached := none, listing := [exRawA] }

/-- A 4-byte image in one nested subfolder of source directory `s`. -/
def exNest1 : FileData :=
  { path := ["s", "sub1", "a.jpg"], size := 4, created := 0, modified := 0,
    extension := ".jpg", ftype := "image" }

/-- An 8-byte image in another nested subfolder of the same source
directory `s`. -/
def exNest2 : FileData :=
  { path := ["s", "sub2", "b.jpg"], size := 8, created := 0, modified := 0,
    extension := ".jpg", ftype := "image" }

/-! ### Helper lemmas about the filter pipeline -/

theorem filter_swap (p q : FileData → Bool) (l : List FileData) :
    (l.filter q).filter p = (l.filter p).filter q := by
  simp only [List.filter_filter]
  congr 1
  funext a
  rw [Bool.and_comm]

theorem dateFromStep_filter (f : Filters) (p : FileData → Bool) (l : List FileData) :
    dateFromStep f (l.filter p) = Except.map (List.filter p) (dateFromStep f l) := by
  unfold dateFromStep
  split
  · cases parseDate (f.date_from.getD "") with
    | none => rfl
    | some t => simp only [Except.map]; rw [filter_swap]
  · rfl

theorem dateToStep_filter (f : Filters) (p : FileData → Bool) (l : List FileData) :
    dateToStep f (l.filter p) = Except.map (List.filter p) (dateToStep f l) := by
  unfold dateToStep
  split
  · cases parseDate (f.date_to.getD "") with
    | none => rfl
    | some t => simp only [Except.map]; rw [filter_swap]
  · rfl

theorem fileTypeStep_filter (f : Filters) (p : FileData → Bool) (l : List FileData) :
    fileTypeStep f (l.filter p) = (fileTypeStep f l).filter p := by
  unfold fileTypeStep
  split
  · exact filter_swap _ _ _
  · rfl

theorem mediaTypeStep_filter (f : Filters) (p : FileData → Bool) (l : List FileData) :
    mediaTypeStep f (l.filter p) = (mediaTypeStep f l).filter p := by
  unfold mediaTypeStep
  split
  · exact filter_swap _ _ _
  · rfl

/-- `apply_filters` with the max-size key erased, unfolded; holds by
definitional unfolding since no other stanza reads `max_size`. -/
theorem apply_filters_erase_max (entries : List FileData) (f : Filters) :
    apply_filters entries (some { f with max_size := none }) =
      (match dateFromStep f (minSizeStep f entries) with
       | .error e => .error e
       | .ok l3 =>
         match dateToStep f l3 with
         | .error e => .error e
         | .ok l4 => .ok (mediaTypeStep f (fileTypeStep f l4))) := rfl

theorem parse_size_eq_zero_of_core_none {s : String}
    (h : parse_size_core s = none) : parse_size s = 0 := by
  simp [parse_size, h]

theorem minSizeStep_of_malformed {f : Filters} {s : String}
    (hmin : f.min_size = some s) (hne : s ≠ "")
    (hcore : parse_size_core s = none) (l : List FileData) :
    minSizeStep f l = l := by
  unfold minSizeStep
  rw [hmin]
  have hd : strTruthy (some s) = true := by simp [strTruthy, hne]
  rw [hd]
  simp [parse_size_eq_zero_of_core_none hcore, List.filter_eq_self]

theorem maxSizeStep_of_malformed {f : Filters} {s : String}
    (hmax : f.max_size = some s) (hne : s ≠ "")
    (hcore : parse_size_core s = none) (l : List FileData) :
    maxSizeStep f l = l.filter (fun fd => decide ((fd.size : Int) ≤ 0)) := by
  unfold maxSizeStep
  rw [hmax]
  have hd : strTruthy (some s) = true := by simp [strTruthy, hne]
  rw [hd]
  simp [parse_size_eq_zero_of_core_none hcore]

/-! ### Helper lemmas about sorting, grouping and the size greedy -/

theorem insertBySize_mem (fd : FileData) (l : List FileData) (x : FileData) :
    x ∈ insertBySize fd l ↔ x = fd ∨ x ∈ l := by
  induction l with
  | nil => simp [insertBySize]
  | cons y ys ih =>
    simp only [insertBySize]
    split
    · simp only [List.mem_cons, ih]
      tauto
    · simp [List.mem_cons]

theorem insertBySize_pairwise (fd : FileData) (l : List FileData)
    (h : l.Pairwise (fun a b => a.size ≤ b.size)) :
    (insertBySize fd l).Pairwise (fun a b => a.size ≤ b.size) := by
  induction l with
  | nil => simp [insertBySize]
  | cons y ys ih =>
    rw [List.pairwise_cons] at h
    obtain ⟨hy, hys⟩ := h
    simp only [insertBySize]
    split
    · rename_i hle
      rw [List.pairwise_cons]
      refine ⟨?_, ih hys⟩
      intro b hb
      rcases (insertBySize_mem fd ys b).mp hb with rfl | hb
      · exact hle
      · exact hy b hb
    · rename_i hgt
      rw [List.pairwise_cons]
      refine ⟨?_, List.pairwise_cons.mpr ⟨hy, hys⟩⟩
      intro b hb
      rcases List.mem_cons.mp hb with rfl | hb
      · omega
      · have := hy b hb
        omega

theorem sortBySize_aux_pairwise (l : List FileData) :
    ∀ acc : List FileData, acc.Pairwise (fun a b => a.size ≤ b.size) →
      (l.foldl (fun a fd => insertBySize fd a) acc).Pairwise
        (fun a b => a.size ≤ b.size) := by
  induction l with
  | nil => intro acc h; simpa using h
  | cons fd rest ih =>
    intro acc h
    simp only [List.foldl_cons]
    exact ih _ (insertBySize_pairwise fd acc h)

theorem sortBySize_pairwise (l : List FileData) :
    (sortBySize l).Pairwise (fun a b => a.size ≤ b.size) :=
  sortBySize_aux_pairwise l [] (by simp)

theorem sortBySize_aux_mem (l : List FileData) :
    ∀ (acc : List FileData) (x : FileData),
      x ∈ l.foldl (fun a fd => insertBySize fd a) acc ↔ x ∈ acc ∨ x ∈ l := by
  induction l with
  | nil => intro acc x; simp
  | cons fd rest ih =>
    intro acc x
    simp only [List.foldl_cons, ih, insertBySize_mem, List.mem_cons]
    tauto

theorem sortBySize_mem (l : List FileData) (x : FileData) :
    x ∈ sortBySize l ↔ x ∈ l := by
  unfold sortBySize
  rw [sortBySize_aux_mem]
  simp

theorem sizeGreedy_sublist (b : Int) :
    ∀ (l : List FileData) (acc : Int), (sizeGreedy b l acc).Sublist l := by
  intro l
  induction l with
  | nil => intro acc; simp [sizeGreedy]
  | cons fd rest ih =>
    intro acc
    simp only [sizeGreedy]
    by_cases hc : acc + (fd.size : Int) ≤ b
    · simp only [if_pos hc]
      split
      · exact (List.nil_sublist rest).cons₂ fd
      · simp only [List.singleton_append]
        exact (ih _).cons₂ fd
    · simp only [if_neg hc]
      split
      · exact List.nil_sublist _
      · simp only [List.nil_append]
        exact (ih _).cons fd

theorem sizeGreedy_sum (b : Int) :
    ∀ (l : List FileData) (acc : Int),
      acc + ((sizeGreedy b l acc).map (fun fd => (fd.size : Int))).sum ≤
        max acc b := by
  intro l
  induction l with
  | nil =>
    intro acc
    simp [sizeGreedy]
  | cons fd rest ih =>
    intro acc
    simp only [sizeGreedy]
    by_cases hc : acc + (fd.size : Int) ≤ b
    · simp only [if_pos hc]
      split
      · simp only [List.map_cons, List.map_nil, List.sum_cons, List.sum_nil]
        omega
      · have := ih (acc + (fd.size : Int))
        simp only [List.singleton_append, List.map_cons, List.sum_cons]
        omega
    · simp only [if_neg hc]
      split
      · simp only [List.map_nil, List.sum_nil]
        omega
      · simp only [List.nil_append]
        exact ih acc

theorem folderKeys_aux_ne_nil (l : List FileData) :
    ∀ acc : List MPath, acc ≠ [] →
      l.foldl (fun acc fd =>
        if pathParent fd.path ∈ acc then acc else acc ++ [pathParent fd.path])
        acc ≠ [] := by
  induction l with
  | nil => intro acc h; simpa using h
  | cons fd rest ih =>
    intro acc h
    simp only [List.foldl_cons]
    apply ih
    split
    · exact h
    · simp

theorem folderKeys_ne_nil {files : List FileData} (h : files ≠ []) :
    folderKeys files ≠ [] := by
  match files with
  | [] => exact absurd rfl h
  | fd :: rest =>
    unfold folderKeys
    simp only [List.foldl_cons, List.not_mem_nil, if_neg (fun h => h), List.nil_append]
    exact folderKeys_aux_ne_nil rest [pathParent fd.path] (by simp)

theorem folderKeys_aux_nodup (l : List FileData) :
    ∀ acc : List MPath, acc.Nodup →
      (l.foldl (fun acc fd =>
        if pathParent fd.path ∈ acc then acc else acc ++ [pathParent fd.path])
        acc).Nodup := by
  induction l with
  | nil => intro acc h; simpa using h
  | cons fd rest ih =>
    intro acc h
    simp only [List.foldl_cons]
    apply ih
    split
    · exact h
    · rename_i hnm
      simp [List.nodup_append, h, hnm]

theorem folderKeys_nodup (files : List FileData) : (folderKeys files).Nodup :=
  folderKeys_aux_nodup files [] (by simp)

theorem filter_flatMap_group (keys : List MPath) (g : MPath → List FileData)
    (hk : keys.Nodup)
    (hg : ∀ k ∈ keys, ∀ x ∈ g k, pathParent x.path = k) :
    ∀ k ∈ keys,
      (keys.flatMap g).filter (fun x => decide (pathParent x.path = k)) = g k := by
  induction keys with
  | nil => simp
  | cons k0 ks ih =>
    intro k hkmem
    rw [List.nodup_cons] at hk
    simp only [List.flatMap_cons, List.filter_append]
    rcases List.mem_cons.mp hkmem with rfl | hmem
    · have h1 : (g k).filter (fun x => decide (pathParent x.path = k)) = g k :=
        List.filter_eq_self.mpr (fun x hx => by
          simp [hg k (List.mem_cons_self _ _) x hx])
      have h2 : (ks.flatMap g).filter (fun x => decide (pathParent x.path = k)) = [] := by
        rw [List.filter_eq_nil_iff]
        intro x hx
        rw [List.mem_flatMap] at hx
        obtain ⟨k', hk', hxk'⟩ := hx
        have := hg k' (List.mem_cons_of_mem _ hk') x hxk'
        simp only [this, decide_eq_true_eq]
        intro heq
        exact hk.1 (heq ▸ hk')
      rw [h1, h2, List.append_nil]
    · have hkne : k ≠ k0 := fun heq => hk.1 (heq ▸ hmem)
      have h1 : (g k0).filter (fun x => decide (pathParent x.path = k)) = [] := by
        rw [List.filter_eq_nil_iff]
        intro x hx
        have := hg k0 (List.mem_cons_self _ _) x hx
        simp only [this, decide_eq_true_eq]
        exact fun heq => hkne heq.symm
      rw [h1, List.nil_append]
      exact ih hk.2 (fun k' hk' => hg k' (List.mem_cons_of_mem _ hk')) k hmem

theorem sum_map_flatMap (keys : List MPath) (g : MPath → List FileData) :
    (((keys.flatMap g).map (fun fd => (fd.size : Int))).sum) =
      ((keys.map (fun k => ((g k).map (fun fd => (fd.size : Int))).sum)).sum) := by
  induction keys with
  | nil => simp
  | cons k0 ks ih =>
    simp only [List.flatMap_cons, List.map_cons, List.map_append, List.sum_append,
      List.sum_cons, ih]

theorem sum_le_length_mul {c : Int} :
    ∀ l : List Int, (∀ x ∈ l, x ≤ c) → l.sum ≤ l.length * c := by
  intro l
  induction l with
  | nil => simp
  | cons x xs ih =>
    intro h
    simp only [List.sum_cons, List.length_cons]
    have hx := h x (List.mem_cons_self _ _)
    have hxs := ih (fun y hy => h y (List.mem_cons_of_mem _ hy))
    have : ((xs.length : Int) + 1) * c = xs.length * c + c := by ring
    push_cast
    rw [this]
    omega

/-- The balanced branch of `select_by_total_size`, unfolded, when the
group list is non-empty. -/
theorem select_by_total_size_balanced_eq (files : List FileData) (ts : String)
    (shuffle : List FileData → List FileData) (hkeys : folderKeys files ≠ []) :
    select_by_total_size files ts true shuffle =
      some ((folderKeys files).flatMap
        (fun k => sizeGreedy (Int.fdiv (parse_size ts) ((folderKeys files).length))
          (sortBySize (folderGroup files k)) 0)) := by
  unfold select_by_total_size
  simp [hkeys]

/-! ### Helper lemmas about balanced selection by count -/

theorem takeSample_length (l : List FileData) (k : Nat) (h : k ≤ l.length) :
    (takeSample l k).length = k := by
  simp only [takeSample, List.length_take]
  omega

theorem balancedPass_length_le (sample : List FileData → Nat → List FileData)
    (hsample : ∀ (l : List FileData) (k : Nat), k ≤ l.length →
      (sample l k).length = k)
    (base : Nat) :
    ∀ (ls : List (List FileData)) (r : Nat),
      (balancedPass sample base ls r).length ≤ ls.length * base + r := by
  intro ls
  induction ls with
  | nil => intro r; simp [balancedPass]
  | cons files rest ih =>
    intro r
    simp only [balancedPass]
    split
    · have htake := hsample files (min (base + (if 0 < r then 1 else 0)) files.length)
        (Nat.min_le_right _ _)
      have hmin : min (base + (if 0 < r then 1 else 0)) files.length ≤
          base + (if 0 < r then 1 else 0) := Nat.min_le_left _ _
      have hrest := ih (r - (if 0 < r then 1 else 0))
      rw [List.length_append, htake, List.length_cons, Nat.succ_mul]
      by_cases h0 : 0 < r
      · simp only [if_pos h0] at *
        omega
      · simp only [if_neg h0] at *
        omega
    · have hrest := ih r
      rw [List.length_cons, Nat.succ_mul]
      omega

theorem balancedPass_length_eq (sample : List FileData → Nat → List FileData)
    (hsample : ∀ (l : List FileData) (k : Nat), k ≤ l.length →
      (sample l k).length = k)
    (base : Nat) :
    ∀ (ls : List (List FileData)) (r : Nat),
      (∀ l ∈ ls, base + 1 ≤ l.length) →
      (balancedPass sample base ls r).length =
        ls.length * base + min r ls.length := by
  intro ls
  induction ls with
  | nil => intro r _; simp [balancedPass]
  | cons files rest ih =>
    intro r hpool
    have hfiles : base + 1 ≤ files.length := hpool files (List.mem_cons_self _ _)
    have hne : files ≠ [] := by
      intro h
      rw [h] at hfiles
      simp at hfiles
    simp only [balancedPass, if_pos hne]
    have hminle : base + (if 0 < r then 1 else 0) ≤ files.length := by
      split <;> omega
    have htake := hsample files (min (base + (if 0 < r then 1 else 0)) files.length)
      (Nat.min_le_right _ _)
    rw [List.length_append, htake, Nat.min_eq_left hminle,
      ih (r - (if 0 < r then 1 else 0)) (fun l hl => hpool l (List.mem_cons_of_mem _ hl)),
      List.length_cons, Nat.succ_mul]
    by_cases h0 : 0 < r
    · simp only [if_pos h0]
      omega
    · simp only [if_neg h0]
      omega

theorem balancedPass_blocks (sample : List FileData → Nat → List FileData)
    (hsample : ∀ (l : List FileData) (k : Nat), k ≤ l.length →
      (sample l k).length = k)
    (base : Nat) :
    ∀ (ls : List (List FileData)) (r : Nat),
      (∀ l ∈ ls, base + 1 ≤ l.length) →
      ∃ blocks : List (List FileData),
        balancedPass sample base ls r = blocks.flatten ∧
        blocks.length = ls.length ∧
        ∀ i < ls.length,
          (blocks.getD i []).length = base + (if i < r then 1 else 0) := by
  intro ls
  induction ls with
  | nil =>
    intro r _
    refine ⟨[], by simp [balancedPass], rfl, ?_⟩
    intro i hi
    simp at hi
  | cons files rest ih =>
    intro r hpool
    have hfiles : base + 1 ≤ files.length := hpool files (List.mem_cons_self _ _)
    have hne : files ≠ [] := by
      intro h
      rw [h] at hfiles
      simp at hfiles
    have hminle : base + (if 0 < r then 1 else 0) ≤ files.length := by
      split <;> omega
    obtain ⟨blocks, hflat, hlen, hidx⟩ :=
      ih (r - (if 0 < r then 1 else 0))
        (fun l hl => hpool l (List.mem_cons_of_mem _ hl))
    refine ⟨sample files (min (base + (if 0 < r then 1 else 0)) files.length) :: blocks,
      ?_, ?_, ?_⟩
    · simp only [balancedPass, if_pos hne, List.flatten_cons, hflat]
    · simp [hlen]
    · intro i hi
      match i with
      | 0 =>
        simp only [List.getD_cons_zero]
        rw [hsample _ _ (Nat.min_le_right _ _), Nat.min_eq_left hminle]
      | Nat.succ j =>
        simp only [List.getD_cons_succ]
        rw [List.length_cons] at hi
        rw [hidx j (by omega)]
        congr 1
        by_cases h0 : 0 < r <;> split_ifs <;> omega

theorem topUp_length_le (sample : List FileData → Nat → List FileData)
    (hsample : ∀ (l : List FileData) (k : Nat), k ≤ l.length →
      (sample l k).length = k)
    (all_files sel : List FileData) (n : Nat) (hsel : sel.length ≤ n) :
    (topUp sample all_files sel n).length ≤ n := by
  simp only [topUp]
  split
  · split
    · rw [List.length_append, hsample _ _ (Nat.min_le_right _ _)]
      have := Nat.min_le_left (n - sel.length)
        (List.length (all_files.filter (fun fd => decide (fd ∉ sel))))
      omega
    · exact hsel
  · exact hsel

theorem topUp_eq_of_not_lt (sample : List FileData → Nat → List FileData)
    (all_files sel : List FileData) (n : Nat) (h : ¬ sel.length < n) :
    topUp sample all_files sel n = sel := by
  simp only [topUp]
  rw [if_neg h]

/-! ### Helper lemmas about decimal strings and filename parts -/

theorem natCharsAux_fuel :
    ∀ (n fuel : Nat), n + 1 ≤ fuel → natCharsAux fuel n = natCharsAux (n + 1) n := by
  intro n
  induction n using Nat.strong_induction_on with
  | _ n ih =>
    intro fuel hfuel
    match fuel with
    | 0 => omega
    | f + 1 =>
      simp only [natCharsAux]
      by_cases h : n < 10
      · simp [h]
      · simp only [if_neg h]
        have hdiv : n / 10 < n := Nat.div_lt_self (by omega) (by omega)
        rw [ih _ hdiv f (by omega), ih _ hdiv n (by omega)]

theorem natChars_unfold (n : Nat) :
    natChars n = if n < 10 then [digitCh (n % 10)]
      else natChars (n / 10) ++ [digitCh (n % 10)] := by
  show natCharsAux (n + 1) n = _
  simp only [natCharsAux]
  by_cases h : n < 10
  · simp [h]
  · simp only [if_neg h]
    have hdiv : n / 10 < n := Nat.div_lt_self (by omega) (by omega)
    rw [natCharsAux_fuel (n / 10) n (by omega)]
    rfl

theorem natChars_ne_nil (n : Nat) : natChars n ≠ [] := by
  rw [natChars_unfold]
  split <;> simp

theorem digitCh_inj : ∀ a < 10, ∀ b < 10, digitCh a = digitCh b → a = b := by
  decide

theorem natChars_inj : ∀ m n : Nat, natChars m = natChars n → m = n := by
  intro m
  induction m using Nat.strong_induction_on with
  | _ m ih =>
    intro n h
    rw [natChars_unfold m, natChars_unfold n] at h
    by_cases hm : m < 10 <;> by_cases hn : n < 10
    · simp only [if_pos hm, if_pos hn, List.cons.injEq, and_true] at h
      have hd := digitCh_inj (m % 10) (by omega) (n % 10) (by omega) h
      omega
    · simp only [if_pos hm, if_neg hn] at h
      have hlen := congrArg List.length h
      simp only [List.length_singleton, List.length_append, List.length_cons,
        List.length_nil] at hlen
      exact absurd (List.length_eq_zero.mp (by omega)) (natChars_ne_nil (n / 10))
    · simp only [if_neg hm, if_pos hn] at h
      have hlen := congrArg List.length h
      simp only [List.length_singleton, List.length_append, List.length_cons,
        List.length_nil] at hlen
      exact absurd (List.length_eq_zero.mp (by omega)) (natChars_ne_nil (m / 10))
    · simp only [if_neg hm, if_neg hn] at h
      obtain ⟨h1, h2⟩ := List.append_inj' h (by simp)
      have hd := digitCh_inj (m % 10) (by omega) (n % 10) (by omega)
        (by simpa using h2)
      have hq := ih (m / 10) (Nat.div_lt_self (by omega) (by omega)) (n / 10) h1
      omega

theorem natStr_inj {m n : Nat} (h : natStr m = natStr n) : m = n := by
  apply natChars_inj
  rwa [natStr, natStr, List.asString_inj] at h

theorem natStr_length_pos (n : Nat) : 1 ≤ (natStr n).length := by
  rw [natStr, List.length_asString]
  exact List.length_pos.mpr (natChars_ne_nil n)

theorem splitLastDot_append :
    ∀ (cs st sf : List Char), splitLastDot cs = some (st, sf) → st ++ sf = cs := by
  intro cs
  induction cs with
  | nil => intro st sf h; simp [splitLastDot] at h
  | cons c rest ih =>
    intro st sf h
    cases hr : splitLastDot rest with
    | some pr =>
      obtain ⟨st1, sf1⟩ := pr
      simp only [splitLastDot, hr] at h
      cases h
      simp only [List.cons_append, List.cons.injEq, true_and]
      exact ih st1 sf hr
    | none =>
      simp only [splitLastDot, hr] at h
      by_cases hc : c = '.'
      · rw [if_pos hc] at h
        simp only [Option.some.injEq, Prod.mk.injEq] at h
        obtain ⟨h1, h2⟩ := h
        rw [← h1, ← h2]
        simp
      · rw [if_neg hc] at h
        simp at h

theorem asString_append (l1 l2 : List Char) :
    (l1 ++ l2).asString = l1.asString ++ l2.asString := rfl

theorem stem_append_suffix (name : String) :
    (stemAndSuffix name).1 ++ (stemAndSuffix name).2 = name := by
  unfold stemAndSuffix
  cases hs : splitLastDot name.toList with
  | none => exact String.append_empty name
  | some pr =>
    obtain ⟨st, sf⟩ := pr
    have hps : st ++ sf = name.toList := splitLastDot_append _ _ _ hs
    by_cases hc : st = [] ∨ sf.length ≤ 1
    · simp only [if_pos hc]
      exact String.append_empty name
    · simp only [if_neg hc]
      show st.asString ++ sf.asString = name
      rw [← asString_append, hps, String.asString_toList]

/-! ### Helper lemmas about the conflict loop and the copy session -/

theorem pathName_child (X : MPath) (nm : String) : pathName (pathChild X nm) = nm := by
  simp [pathName, pathChild, List.getLastD_concat]

theorem pathParent_child (X : MPath) (nm : String) :
    pathParent (pathChild X nm) = X := by
  simp [pathParent, pathChild]

theorem pathChild_inj {X : MPath} {a b : String} (h : pathChild X a = pathChild X b) :
    a = b := by
  simp only [pathChild, List.append_cancel_left_eq, List.cons.injEq, and_true] at h
  exact h

theorem renamedPath_inj (par : MPath) (stem sfx : String) {a b : Nat}
    (h : renamedPath par stem sfx a = renamedPath par stem sfx b) : a = b := by
  apply natStr_inj
  have hs := pathChild_inj h
  have hd := congrArg String.data hs
  simp only [String.data_append, List.append_assoc] at hd
  rw [List.append_cancel_left_eq, List.append_cancel_left_eq] at hd
  have := List.append_cancel_right hd
  rw [← String.toList_inj]
  exact this

theorem base_ne_renamed (par : MPath) (stem sfx : String) (k : Nat) :
    pathChild par (stem ++ sfx) ≠ renamedPath par stem sfx k := by
  intro h
  have hs := pathChild_inj h
  have hl := congrArg String.length hs
  simp only [String.length_append] at hl
  have := natStr_length_pos k
  omega

theorem conflictLoop_eq_find (disk : List MPath) (par : MPath) (stem sfx : String) :
    ∀ (fuel counter : Nat) (dest : MPath),
      conflictLoop disk par stem sfx dest counter (fuel + 1) =
        (dest :: (List.range' counter fuel).map (renamedPath par stem sfx)).find?
          (fun c => decide (c ∉ disk)) := by
  intro fuel
  induction fuel with
  | zero =>
    intro counter dest
    simp only [conflictLoop, List.range'_zero, List.map_nil]
    by_cases h : dest ∈ disk
    · rw [if_pos h, List.find?_cons_of_neg _ (by simpa using h)]
      rfl
    · rw [if_neg h, List.find?_cons_of_pos _ (by simpa using h)]
  | succ fuel ih =>
    intro counter dest
    rw [List.range'_succ, List.map_cons]
    by_cases h : dest ∈ disk
    · rw [List.find?_cons_of_neg _ (by simpa using h)]
      show conflictLoop disk par stem sfx dest counter (fuel + 1 + 1) = _
      simp only [conflictLoop, if_pos h]
      exact ih (counter + 1) (renamedPath par stem sfx counter)
    · rw [List.find?_cons_of_pos _ (by simpa using h)]
      show conflictLoop disk par stem sfx dest counter (fuel + 1 + 1) = _
      simp only [conflictLoop, if_neg h]

theorem conflictLoop_not_mem (disk : List MPath) (par : MPath) (stem sfx : String) :
    ∀ (fuel counter : Nat) (dest d : MPath),
      conflictLoop disk par stem sfx dest counter fuel = some d → d ∉ disk := by
  intro fuel
  match fuel with
  | 0 => intro counter dest d h; simp [conflictLoop] at h
  | f + 1 =>
    intro counter dest d h
    rw [conflictLoop_eq_find] at h
    have := List.find?_some h
    simpa using this

theorem conflictLoop_isSome (disk : List MPath) (par : MPath) (nm : String)
    (counter : Nat) :
    (conflictLoop disk par (stemAndSuffix nm).1 (stemAndSuffix nm).2
      (pathChild par nm) counter (disk.length + 2)).isSome := by
  set stem := (stemAndSuffix nm).1 with hstem
  set sfx := (stemAndSuffix nm).2 with hsfx
  have hnm : stem ++ sfx = nm := stem_append_suffix nm
  rw [show disk.length + 2 = (disk.length + 1) + 1 from rfl,
    conflictLoop_eq_find, List.find?_isSome]
  by_contra hnone
  push_neg at hnone
  have hmem : ∀ c ∈ pathChild par nm ::
      (List.range' counter (disk.length + 1)).map (renamedPath par stem sfx),
      c ∈ disk := by
    intro c hc
    have := hnone c hc
    simpa using this
  have hnodup : (pathChild par nm ::
      (List.range' counter (disk.length + 1)).map
        (renamedPath par stem sfx)).Nodup := by
    rw [List.nodup_cons]
    constructor
    · intro hin
      rw [List.mem_map] at hin
      obtain ⟨k, _, hk⟩ := hin
      exact base_ne_renamed par stem sfx k (by rw [hnm, hk])
    · exact (List.nodup_range' _ _).map
        (fun a b hab => renamedPath_inj par stem sfx hab)
  have hsub : (pathChild par nm ::
      (List.range' counter (disk.length + 1)).map (renamedPath par stem sfx)) ⊆
      disk := hmem
  have hsp := List.subperm_of_subset hnodup hsub
  have hle := hsp.length_le
  simp only [List.length_cons, List.length_map, List.length_range'] at hle
  omega

theorem get_destination_path_parts (fp : MPath) (dp : MPath) (p : Bool)
    (sel : List FileData) :
    ∃ X nm, get_destination_path fp dp p sel = pathChild X nm := by
  unfold get_destination_path
  split
  · split
    · dsimp only
      split
      · exact ⟨_, _, rfl⟩
      · exact ⟨_, _, rfl⟩
    · exact ⟨_, _, rfl⟩
  · exact ⟨_, _, rfl⟩

theorem copy_single_file_isSome (sel : List FileData) (dp : MPath) (p : Bool)
    (disk : List MPath) (fd : FileData) :
    (copy_single_file sel dp p disk fd).isSome := by
  obtain ⟨X, nm, hD⟩ := get_destination_path_parts fd.path dp p sel
  unfold copy_single_file
  rw [hD]
  simp only [pathStem, pathSuffix, pathParent_child, pathName_child]
  exact conflictLoop_isSome disk X nm 1

theorem copy_single_file_fresh {sel : List FileData} {dp : MPath} {p : Bool}
    {disk : List MPath} {fd : FileData} {d : MPath}
    (h : copy_single_file sel dp p disk fd = some d) : d ∉ disk := by
  unfold copy_single_file at h
  exact conflictLoop_not_mem disk _ _ _ _ _ _ _ h

theorem copy_single_file_start_free {sel : List FileData} {dp : MPath} {p : Bool}
    {disk : List MPath} {fd : FileData}
    (h : get_destination_path fd.path dp p sel ∉ disk) :
    copy_single_file sel dp p disk fd =
      some (get_destination_path fd.path dp p sel) := by
  unfold copy_single_file
  rw [show disk.length + 2 = (disk.length + 1) + 1 from rfl, conflictLoop_eq_find,
    List.find?_cons_of_pos _ (by simpa using h)]

theorem resumeNote_disk (rf : Option MPath) (c : Bool) (st : CopyState) :
    (resumeNote rf c st).disk = st.disk := by
  unfold resumeNote
  split
  · cases rf <;> rfl
  · rfl

theorem resumeNote_written (rf : Option MPath) (c : Bool) (st : CopyState) :
    (resumeNote rf c st).written = st.written := by
  unfold resumeNote
  split
  · cases rf <;> rfl
  · rfl

theorem resumeNote_errors (rf : Option MPath) (c : Bool) (st : CopyState) :
    (resumeNote rf c st).errors = st.errors := by
  unfold resumeNote
  split
  · cases rf <;> rfl
  · rfl

/-- The accumulated behaviour of the sequentialized completion loop: the
same list of new paths is appended to the disk and to the written log, no
errors occur, the new paths are pairwise distinct and fresh with respect
to the starting disk, every processed entry's resolved destination is on
the final disk, and every processed entry is paired with one written path
in order. -/
theorem copyLoop_spec (sel : List FileData) (dp : MPath) (p : Bool)
    (rf : Option MPath) (total : Nat) :
    ∀ (l : List FileData) (st : CopyState),
      ∃ ws : List MPath,
        (copyLoop sel dp p rf total l st).disk = st.disk ++ ws ∧
        (copyLoop sel dp p rf total l st).written = st.written ++ ws ∧
        (copyLoop sel dp p rf total l st).errors = st.errors ∧
        ws.length = l.length ∧ ws.Nodup ∧
        (∀ w ∈ ws, w ∉ st.disk) ∧
        (∀ fd ∈ l, get_destination_path fd.path dp p sel ∈
          (copyLoop sel dp p rf total l st).disk) ∧
        (∀ a ∈ l, ∃ w, (a, w) ∈ l.zip ws) := by
  intro l
  induction l with
  | nil =>
    intro st
    exact ⟨[], by simp [copyLoop], by simp [copyLoop], by simp [copyLoop], rfl,
      List.nodup_nil, by simp, by simp, by simp⟩
  | cons fd rest ih =>
    intro st
    obtain ⟨d, hd⟩ :=
      Option.isSome_iff_exists.mp (copy_single_file_isSome sel dp p st.disk fd)
    have hfresh : d ∉ st.disk := copy_single_file_fresh hd
    have hstep : copyLoop sel dp p rf total (fd :: rest) st =
        copyLoop sel dp p rf total rest
          { resumeNote rf (decide ((st.idx + 1) % 10 = 0 ∨ st.idx + 1 = total))
              { st with
                disk := st.disk ++ [d],
                copied_files := st.copied_files.insert d,
                copied_count := st.copied_count + 1,
                written := st.written ++ [d],
                effects := st.effects ++
                  [.mkdirEff (pathParent d), .copyEff fd.path d] } with
            idx := st.idx + 1 } := by
      simp only [copyLoop, hd]
    obtain ⟨ws, h1, h2, h3, h4, h5, h6, h7, h8⟩ :=
      ih { resumeNote rf (decide ((st.idx + 1) % 10 = 0 ∨ st.idx + 1 = total))
          { st with
            disk := st.disk ++ [d],
            copied_files := st.copied_files.insert d,
            copied_count := st.copied_count + 1,
            written := st.written ++ [d],
            effects := st.effects ++
              [.mkdirEff (pathParent d), .copyEff fd.path d] } with
        idx := st.idx + 1 }
    set ST : CopyState :=
      { resumeNote rf (decide ((st.idx + 1) % 10 = 0 ∨ st.idx + 1 = total))
          { st with
            disk := st.disk ++ [d],
            copied_files := st.copied_files.insert d,
            copied_count := st.copied_count + 1,
            written := st.written ++ [d],
            effects := st.effects ++
              [.mkdirEff (pathParent d), .copyEff fd.path d] } with
        idx := st.idx + 1 } with hST
    have hDdisk : ST.disk = st.disk ++ [d] := by
      rw [hST]
      exact resumeNote_disk _ _ _
    have hDwr : ST.written = st.written ++ [d] := by
      rw [hST]
      exact resumeNote_written _ _ _
    have hDerr : ST.errors = st.errors := by
      rw [hST]
      exact resumeNote_errors _ _ _
    rw [hDdisk] at h1 h6
    rw [hDwr] at h2
    rw [hDerr] at h3
    have hdws : d ∉ ws := by
      intro hmem
      exact (h6 d hmem) (List.mem_append_right _ (List.mem_singleton.mpr rfl))
    refine ⟨d :: ws, ?_, ?_, ?_, ?_, ?_, ?_, ?_, ?_⟩
    · rw [hstep, h1, List.append_assoc, List.singleton_append]
    · rw [hstep, h2, List.append_assoc, List.singleton_append]
    · rw [hstep, h3]
    · simp [h4]
    · exact List.nodup_cons.mpr ⟨hdws, h5⟩
    · intro w hw
      rcases List.mem_cons.mp hw with rfl | hw
      · exact hfresh
      · intro hwin
        exact (h6 w hw) (List.mem_append_left _ hwin)
    · intro fd2 hfd2
      rcases List.mem_cons.mp hfd2 with rfl | hfd2
      · by_cases hin : get_destination_path fd2.path dp p sel ∈ st.disk
        · rw [hstep, h1]
          exact List.mem_append_left _ (List.mem_append_left _ hin)
        · have := copy_single_file_start_free hin
          rw [this] at hd
          have hdd : d = get_destination_path fd2.path dp p sel :=
            (Option.some.inj hd).symm
          rw [hstep, h1, ← hdd]
          exact List.mem_append_left _
            (List.mem_append_right _ (List.mem_singleton.mpr rfl))
      · rw [hstep]
        exact h7 fd2 hfd2
    · intro a ha
      rcases List.mem_cons.mp ha with rfl | ha
      · exact ⟨d, List.mem_cons_self _ _⟩
      · obtain ⟨w, hw⟩ := h8 a ha
        exact ⟨w, List.mem_cons_of_mem _ hw⟩

theorem copy_files_parallel_remaining (sel : List FileData) (dp : MPath)
    (p : Bool) (r : Option (List MPath)) (rf : Option MPath)
    (disk : List MPath) :
    (copy_files_parallel sel dp p r rf disk).remaining =
      sel.filter (fun fd =>
        decide (get_destination_path fd.path dp p sel ∉ (r.getD []).dedup ∧
          get_destination_path fd.path dp p sel ∉ disk)) := by
  simp only [copy_files_parallel]
  split
  · rename_i h
    exact h.symm
  · rfl

theorem copy_files_parallel_of_nil (sel : List FileData) (dp : MPath) (p : Bool)
    (r : Option (List MPath)) (rf : Option MPath) (disk : List MPath)
    (h : sel.filter (fun fd =>
      decide (get_destination_path fd.path dp p sel ∉ (r.getD []).dedup ∧
        get_destination_path fd.path dp p sel ∉ disk)) = []) :
    copy_files_parallel sel dp p r rf disk =
      { copied_count := sel.length, errors := [], disk := disk, written := [],
        remaining := [], effects := [.mkdirEff dp] } := by
  simp only [copy_files_parallel]
  rw [if_pos h]

/-- The input/output behaviour of one copy run: no errors, the final disk
is the starting disk plus the written paths, one distinct fresh path is
written per work-list entry, every selected entry's resolved destination
ends up on the final disk unless the resume set pre-empted it, and each
work-list entry is paired with one written path. -/
theorem copy_files_parallel_run_spec (sel : List FileData) (dp : MPath)
    (p : Bool) (r : Option (List MPath)) (rf : Option MPath)
    (disk : List MPath) :
    (copy_files_parallel sel dp p r rf disk).errors = [] ∧
    (copy_files_parallel sel dp p r rf disk).disk =
      disk ++ (copy_files_parallel sel dp p r rf disk).written ∧
    (copy_files_parallel sel dp p r rf disk).written.length =
      (copy_files_parallel sel dp p r rf disk).remaining.length ∧
    (copy_files_parallel sel dp p r rf disk).written.Nodup ∧
    (∀ w ∈ (copy_files_parallel sel dp p r rf disk).written, w ∉ disk) ∧
    (∀ fd ∈ sel,
      get_destination_path fd.path dp p sel ∈
          (copy_files_parallel sel dp p r rf disk).disk ∨
      get_destination_path fd.path dp p sel ∈ (r.getD []).dedup) ∧
    (∀ a ∈ (copy_files_parallel sel dp p r rf disk).remaining, ∃ w,
      (a, w) ∈ (copy_files_parallel sel dp p r rf disk).remaining.zip
        (copy_files_parallel sel dp p r rf disk).written) := by
  simp only [copy_files_parallel]
  split
  · rename_i h
    refine ⟨rfl, by simp, rfl, List.nodup_nil, by simp, ?_, by simp⟩
    intro fd hfd
    by_cases hdup : get_destination_path fd.path dp p sel ∈ (r.getD []).dedup
    · exact Or.inr hdup
    · by_cases hdisk : get_destination_path fd.path dp p sel ∈ disk
      · exact Or.inl hdisk
      · exfalso
        have hfm : fd ∈ sel.filter (fun fd =>
            decide (get_destination_path fd.path dp p sel ∉ (r.getD []).dedup ∧
              get_destination_path fd.path dp p sel ∉ disk)) :=
          List.mem_filter.mpr ⟨hfd, by simp [hdup, hdisk]⟩
        rw [h] at hfm
        exact absurd hfm (List.not_mem_nil fd)
  · rename_i hne
    set rem := sel.filter (fun fd =>
      decide (get_destination_path fd.path dp p sel ∉ (r.getD []).dedup ∧
        get_destination_path fd.path dp p sel ∉ disk)) with hremdef
    obtain ⟨ws, h1, h2, h3, h4, h5, h6, h7, h8⟩ :=
      copyLoop_spec sel dp p rf rem.length rem
        { disk := disk, copied_files := (r.getD []).dedup,
          copied_count := (r.getD []).dedup.length, written := [], errors := [],
          effects := [.mkdirEff dp], idx := 0 }
    refine ⟨h3, ?_, ?_, ?_, ?_, ?_, ?_⟩
    · rw [h1, h2]
      rfl
    · rw [h2]
      show ([] ++ ws).length = rem.length
      simpa using h4
    · rw [h2]
      show ([] ++ ws).Nodup
      simpa using h5
    · intro w hw
      rw [h2] at hw
      exact h6 w (by simpa using hw)
    · intro fd hfd
      by_cases hin : fd ∈ rem
      · exact Or.inl (h7 fd hin)
      · rw [hremdef] at hin
        by_cases hdup : get_destination_path fd.path dp p sel ∈ (r.getD []).dedup
        · exact Or.inr hdup
        · by_cases hdisk : get_destination_path fd.path dp p sel ∈ disk
          · refine Or.inl ?_
            rw [h1]
            exact List.mem_append_left _ hdisk
          · exfalso
            exact hin (List.mem_filter.mpr ⟨hfd, by simp [hdup, hdisk]⟩)
    · intro a ha
      obtain ⟨w, hw⟩ := h8 a ha
      refine ⟨w, ?_⟩
      rw [h2]
      exact hw

theorem zip_snd_ne {l : List FileData} {ws : List MPath} (hnd : ws.Nodup)
    {a b : FileData} {da db : MPath}
    (ha : (a, da) ∈ l.zip ws) (hb : (b, db) ∈ l.zip ws) (hab : a ≠ b) :
    da ≠ db := by
  obtain ⟨i, hilt, hival⟩ := List.mem_iff_getElem.mp ha
  obtain ⟨j, hjlt, hjval⟩ := List.mem_iff_getElem.mp hb
  have hizip := hilt
  have hjzip := hjlt
  rw [List.length_zip] at hizip hjzip
  rw [List.getElem_zip] at hival hjval
  have hia := congrArg Prod.fst hival
  have hida := congrArg Prod.snd hival
  have hja := congrArg Prod.fst hjval
  have hjdb := congrArg Prod.snd hjval
  simp only at hia hida hja hjdb
  have hij : i ≠ j := by
    intro heq
    subst heq
    exact hab (hia.symm.trans hja)
  intro hdd
  apply hij
  have hiw : i < ws.length := by omega
  have hjw : j < ws.length := by omega
  have hws : ws[i] = ws[j] := by
    rw [hida, hjdb, hdd]
  exact (List.Nodup.getElem_inj_iff hnd).mp hws

theorem select_by_total_size_isSome (files : List FileData) (ts : String)
    (bal : Bool) (shuffle : List FileData → List FileData) (h : files ≠ []) :
    (select_by_total_size files ts bal shuffle).isSome := by
  cases bal with
  | false => simp [select_by_total_size]
  | true => simp [select_by_total_size, folderKeys_ne_nil h]

theorem collect_effects_cacheWrite (fs : FolderFS) (folder : MPath)
    (flt : Option Filters) (uc : Bool) :
    ∀ e ∈ (collect_media_files_optimized fs folder flt uc).2,
      ∃ g, e = Effect.cacheWrite g := by
  unfold collect_media_files_optimized
  split
  · simp
  · split
    · split
      · simp
      · intro e he
        simp only [List.mem_singleton] at he
        exact ⟨folder, he⟩
    · simp

theorem dry_run_effects (source_folders : List MPath) (folderFS : MPath → FolderFS)
    (destination_folder : MPath) (dest_exists : Bool) (disk : List MPath)
    (resume_loaded : Option (List MPath)) (num_files : Nat)
    (target_size : Option String) (balanced preserve_structure : Bool)
    (filters : Option Filters) (resume_file : Option MPath) (use_cache : Bool)
    (sample : List FileData → Nat → List FileData)
    (shuffle : List FileData → List FileData) :
    (randomly_select_and_copy_files source_folders folderFS destination_folder
        dest_exists disk resume_loaded num_files target_size balanced true
        preserve_structure filters resume_file use_cache sample shuffle).2 =
      ((source_folders.map (fun f =>
        collect_media_files_optimized (folderFS f) f filters use_cache)).map
          Prod.snd).flatten := by
  simp only [randomly_select_and_copy_files]
  have h0 : (if dest_exists = false ∧ (true : Bool) = false
      then [Effect.mkdirEff destination_folder] else []) = [] := by
    simp
  rw [h0, List.nil_append]
  split
  · rfl
  · split
    · rfl
    · split
      · rfl
      · rfl

/-! ### Claim theorems -/

/-- C1: the claim is right and the code is wrong.  The selection log's
`files` list is built from the selected entries' SOURCE paths, and
`copy_files_parallel` returns only `(copied_count, errors)` — it never
surfaces the destination paths it wrote.  Concretely, copying
`src/a.jpg` into `dst` writes exactly `dst/a.jpg`, yet the log records
`src/a.jpg`, a path the copy never wrote — so the undo that deletes the
logged paths would delete the original source file. -/
theorem C1_log_lists_source_not_destination :
    selection_log_files [exSrcA] = [["src", "a.jpg"]] ∧
    (copy_files_parallel [exSrcA] ["dst"] false none none []).written =
      [["dst", "a.jpg"]] ∧
    (["src", "a.jpg"] : MPath) ∉
      (copy_files_parallel [exSrcA] ["dst"] false none none []).written ∧
    (copy_files_parallel [exSrcA] ["dst"] false none none []).copied_count = 1 ∧
    (copy_files_parallel [exSrcA] ["dst"] false none none []).errors = [] := by
  decide

/-- C2: the claim is right and the code is wrong.  The suffix loop of
`parse_size` iterates the multiplier dict in insertion order, so "B"
matches first on every KB/MB/GB/TB string; the numeric parse of the
remaining text (for example `float("10K")`) then fails, the loop breaks,
the plain-integer fallback fails too, and the function returns 0 instead
of the documented value.  Plain integers and "B"-suffixed strings still
parse. -/
theorem C2_suffixed_sizes_parse_to_zero :
    parse_size "10KB" = 0 ∧ parse_size "10MB" = 0 ∧ parse_size "1.5GB" = 0 ∧
    parse_size "2TB" = 0 ∧ parse_size "512" = 512 ∧ parse_size "10B" = 10 ∧
    parse_size "2.5B" = 2 := by
  decide

/-- C3: the code evaluated at the claim's two failing inputs.
Silent skip (first three conjuncts): a selected file whose resolved
destination already exists on disk is dropped from the work list by the
pre-filter of `copy_files_parallel` (line 316) — the run writes nothing
and no `a_1.jpg` appears, so the file is silently skipped rather than
copied under the first unused suffixed name.  Overwrite race (remaining
conjuncts): the exists-then-copy of `copy_single_file` (lines 337-345)
runs unsynchronized in the worker pool (lines 352-354), so two selected
files sharing the basename `a.jpg` can both resolve their destination
against the same observed disk state — both choose `dst/a.jpg` — and in
the interleaving where both existence checks precede both copies, the
second `shutil.copy2` replaces the first file's bytes: afterwards the
only content under the destination is the second source's, and the first
selected file's bytes sit at no destination path. -/
theorem C3_collision_claim_fails :
    (copy_files_parallel [exSrcA] ["dst"] false none none
        [["dst", "a.jpg"]]).remaining = [] ∧
    (copy_files_parallel [exSrcA] ["dst"] false none none
        [["dst", "a.jpg"]]).written = [] ∧
    (["dst", "a_1.jpg"] : MPath) ∉
      (copy_files_parallel [exSrcA] ["dst"] false none none
        [["dst", "a.jpg"]]).disk ∧
    copy_single_file [exSrcA, exOtherA] ["dst"] false [] exSrcA =
      some ["dst", "a.jpg"] ∧
    copy_single_file [exSrcA, exOtherA] ["dst"] false [] exOtherA =
      some ["dst", "a.jpg"] ∧
    (diskWrite (diskWrite [] exSrcA.path ["dst", "a.jpg"])
        exOtherA.path ["dst", "a.jpg"]).map Prod.snd = [exOtherA.path] ∧
    (["dst", "a.jpg"], exSrcA.path) ∉
      diskWrite (diskWrite [] exSrcA.path ["dst", "a.jpg"])
        exOtherA.path ["dst", "a.jpg"] := by
  decide

/-- C5 counterexample: two source folders with pools of 1 and 10 files and
a requested count of 6 (which does not exceed the 11 available entries):
the first folder contributes 1 entry and, after the top-up pass, the
second contributes 5 — neither is `6 / 2 = 3` nor `3 + 1 = 4`, refuting
the claimed per-directory bounds (here with the sampler drawing the first
elements, one of the possible runs). -/
theorem C5_per_directory_bounds_fail :
    ((balanced_select_by_count takeSample [[exSrcA], exPoolB]
        ([exSrcA] ++ exPoolB) 6).filter
      (fun f => decide (f ∈ [exSrcA]))).length = 1 ∧
    ((balanced_select_by_count takeSample [[exSrcA], exPoolB]
        ([exSrcA] ++ exPoolB) 6).filter
      (fun f => decide (f ∈ exPoolB))).length = 5 ∧
    ¬ (1 = 6 / 2 ∨ 1 = 6 / 2 + 1) ∧ ¬ (5 = 6 / 2 ∨ 5 = 6 / 2 + 1) := by
  decide

/-- C4: running the copy twice with the same selection and destination
and resume enabled (no prior ledger on the first run; the clean first run
deletes its ledger, so the second loads none): after the first run every
selected entry's resolved destination path exists on disk, so the second
run's work list is empty — it copies zero files, reports no errors,
returns the full selection count, and leaves the destination disk
unchanged. -/
theorem C4_resume_idempotent (sel : List FileData) (dp : MPath) (p : Bool)
    (rf rf2 : Option MPath) (disk : List MPath) :
    (∀ fd ∈ sel, get_destination_path fd.path dp p sel ∈
      (copy_files_parallel sel dp p none rf disk).disk) ∧
    (copy_files_parallel sel dp p none rf2
      (copy_files_parallel sel dp p none rf disk).disk).remaining = [] ∧
    (copy_files_parallel sel dp p none rf2
      (copy_files_parallel sel dp p none rf disk).disk).written = [] ∧
    (copy_files_parallel sel dp p none rf2
        (copy_files_parallel sel dp p none rf disk).disk).disk =
      (copy_files_parallel sel dp p none rf disk).disk ∧
    (copy_files_parallel sel dp p none rf2
      (copy_files_parallel sel dp p none rf disk).disk).errors = [] ∧
    (copy_files_parallel sel dp p none rf2
        (copy_files_parallel sel dp p none rf disk).disk).copied_count =
      sel.length := by
  obtain ⟨_, _, _, _, _, hres, _⟩ :=
    copy_files_parallel_run_spec sel dp p none rf disk
  have hresolved : ∀ fd ∈ sel, get_destination_path fd.path dp p sel ∈
      (copy_files_parallel sel dp p none rf disk).disk := by
    intro fd hfd
    rcases hres fd hfd with h | h
    · exact h
    · simp at h
  have hfil : sel.filter (fun fd =>
      decide (get_destination_path fd.path dp p sel ∉
          ((none : Option (List MPath)).getD []).dedup ∧
        get_destination_path fd.path dp p sel ∉
          (copy_files_parallel sel dp p none rf disk).disk)) = [] := by
    rw [List.filter_eq_nil_iff]
    intro fd hfd
    simp [hresolved fd hfd]
  have hnil := copy_files_parallel_of_nil sel dp p none rf2
    (copy_files_parallel sel dp p none rf disk).disk hfil
  rw [hnil]
  exact ⟨hresolved, rfl, rfl, rfl, rfl, rfl⟩

/-- Witness for C4: the theorem applied to a concrete two-file selection
onto an empty destination disk. -/
theorem C4_resume_idempotent_witness :
    (∀ fd ∈ [exSrcA, exOtherA], get_destination_path fd.path ["dst"] false
      [exSrcA, exOtherA] ∈
      (copy_files_parallel [exSrcA, exOtherA] ["dst"] false none none
        []).disk) ∧
    (copy_files_parallel [exSrcA, exOtherA] ["dst"] false none none
      (copy_files_parallel [exSrcA, exOtherA] ["dst"] false none none
        []).disk).remaining = [] ∧
    (copy_files_parallel [exSrcA, exOtherA] ["dst"] false none none
      (copy_files_parallel [exSrcA, exOtherA] ["dst"] false none none
        []).disk).written = [] ∧
    (copy_files_parallel [exSrcA, exOtherA] ["dst"] false none none
        (copy_files_parallel [exSrcA, exOtherA] ["dst"] false none none
          []).disk).disk =
      (copy_files_parallel [exSrcA, exOtherA] ["dst"] false none none
        []).disk ∧
    (copy_files_parallel [exSrcA, exOtherA] ["dst"] false none none
      (copy_files_parallel [exSrcA, exOtherA] ["dst"] false none none
        []).disk).errors = [] ∧
    (copy_files_parallel [exSrcA, exOtherA] ["dst"] false none none
        (copy_files_parallel [exSrcA, exOtherA] ["dst"] false none none
          []).disk).copied_count = 2 :=
  C4_resume_idempotent [exSrcA, exOtherA] ["dst"] false none none []

/-- C5 (amended): for balanced selection by count over N directories, the
total selected never exceeds n (for any sampler); the per-directory
bounds of the claim hold under the proviso that every directory's pool
has at least floor(n/N)+1 entries: then the balanced pass hands exactly
floor(n/N)+1 entries to the first n mod N directories and floor(n/N) to
the rest, the total is exactly n, and the top-up pass adds nothing.
(Without the proviso a directory's contribution is capped at its pool
size and the top-up can push another directory beyond floor(n/N)+1, as
the counterexample shows.) -/
theorem C5_balanced_count_amended
    (sample : List FileData → Nat → List FileData)
    (folder_files : List (List FileData)) (all_files : List FileData) (n : Nat)
    (hsample : ∀ (l : List FileData) (k : Nat), k ≤ l.length →
      (sample l k).length = k) :
    (balanced_select_by_count sample folder_files all_files n).length ≤ n ∧
    ((∀ l ∈ folder_files, n / folder_files.length + 1 ≤ l.length) →
      folder_files ≠ [] →
      ∃ blocks : List (List FileData),
        balanced_select_by_count sample folder_files all_files n =
          blocks.flatten ∧
        blocks.length = folder_files.length ∧
        (∀ i < folder_files.length,
          (blocks.getD i []).length =
            n / folder_files.length +
              (if i < n % folder_files.length then 1 else 0)) ∧
        (balanced_select_by_count sample folder_files all_files n).length = n) := by
  constructor
  · have hpass := balancedPass_length_le sample hsample
      (n / folder_files.length) folder_files (n % folder_files.length)
    have hdm := Nat.div_add_mod n folder_files.length
    unfold balanced_select_by_count
    exact topUp_length_le sample hsample _ _ n (by omega)
  · intro hpool hne
    have hNpos : 0 < folder_files.length := List.length_pos.mpr hne
    have hmod : n % folder_files.length < folder_files.length :=
      Nat.mod_lt _ hNpos
    have hlen := balancedPass_length_eq sample hsample (n / folder_files.length)
      folder_files (n % folder_files.length) hpool
    rw [Nat.min_eq_left (by omega)] at hlen
    have hdm := Nat.div_add_mod n folder_files.length
    have hn : (balancedPass sample (n / folder_files.length) folder_files
        (n % folder_files.length)).length = n := by omega
    obtain ⟨blocks, hflat, hblen, hidx⟩ :=
      balancedPass_blocks sample hsample (n / folder_files.length)
        folder_files (n % folder_files.length) hpool
    have hsel : balanced_select_by_count sample folder_files all_files n =
        balancedPass sample (n / folder_files.length) folder_files
          (n % folder_files.length) := by
      unfold balanced_select_by_count
      exact topUp_eq_of_not_lt sample _ _ _ (by omega)
    exact ⟨blocks, by rw [hsel, hflat], hblen, hidx, by rw [hsel, hn]⟩

/-- Witness for C5 (amended): two pools of 10 and 2 entries, n = 3 (so
floor(n/N) = 1, n mod N = 1): the first pool contributes 2, the second 1,
and the total is exactly 3. -/
theorem C5_balanced_count_witness :
    (∀ l ∈ [exPoolB, [exSrcA, exOtherA]],
      3 / (List.length [exPoolB, [exSrcA, exOtherA]]) + 1 ≤ l.length) ∧
    (balanced_select_by_count takeSample [exPoolB, [exSrcA, exOtherA]]
        (exPoolB ++ [exSrcA, exOtherA]) 3).length ≤ 3 ∧
    ∃ blocks : List (List FileData),
      balanced_select_by_count takeSample [exPoolB, [exSrcA, exOtherA]]
          (exPoolB ++ [exSrcA, exOtherA]) 3 = blocks.flatten ∧
      blocks.length = List.length [exPoolB, [exSrcA, exOtherA]] ∧
      (∀ i < List.length [exPoolB, [exSrcA, exOtherA]],
        (blocks.getD i []).length =
          3 / List.length [exPoolB, [exSrcA, exOtherA]] +
            (if i < 3 % List.length [exPoolB, [exSrcA, exOtherA]] then 1
             else 0)) ∧
      (balanced_select_by_count takeSample [exPoolB, [exSrcA, exOtherA]]
          (exPoolB ++ [exSrcA, exOtherA]) 3).length = 3 :=
  ⟨by decide,
   (C5_balanced_count_amended takeSample [exPoolB, [exSrcA, exOtherA]]
      (exPoolB ++ [exSrcA, exOtherA]) 3 takeSample_length).1,
   (C5_balanced_count_amended takeSample [exPoolB, [exSrcA, exOtherA]]
      (exPoolB ++ [exSrcA, exOtherA]) 3 takeSample_length).2
     (by decide) (by decide)⟩

/-- C6 (amended): balanced selection by size partitions the target across
the distinct immediate parent-folder groups of the input entries — not
across the given source directories, a different count whenever a scan
finds files in nested subfolders: each group's share is the target
divided by the number of groups (floor division, the remainder never
distributed), within each group the selected entries are in ascending
size order with their total at most the share, and the total selected
size never exceeds the parsed target. -/
theorem C6_balanced_by_size_bounds (files : List FileData) (ts : String)
    (shuffle : List FileData → List FileData)
    (hne : files ≠ []) (ht : 0 ≤ parse_size ts) :
    ∃ sel, select_by_total_size files ts true shuffle = some sel ∧
      (∀ k ∈ folderKeys files,
        ((sel.filter (fun fd => decide (pathParent fd.path = k))).map
            (fun fd => (fd.size : Int))).sum ≤
          Int.fdiv (parse_size ts) ((folderKeys files).length) ∧
        (sel.filter (fun fd => decide (pathParent fd.path = k))).Pairwise
          (fun a b => a.size ≤ b.size)) ∧
      (sel.map (fun fd => (fd.size : Int))).sum ≤ parse_size ts := by
  have hkeys := folderKeys_ne_nil hne
  set N := (folderKeys files).length with hN
  set share := Int.fdiv (parse_size ts) N with hshare
  set g : MPath → List FileData :=
    fun k => sizeGreedy share (sortBySize (folderGroup files k)) 0 with hgdef
  have hNpos : 0 < N := by
    rw [hN]
    exact List.length_pos.mpr hkeys
  have hshare_nonneg : 0 ≤ share := by
    rw [hshare]
    exact Int.fdiv_nonneg ht (Int.natCast_nonneg N)
  have hmax : max (0 : Int) share = share := max_eq_right hshare_nonneg
  have hg : ∀ k ∈ folderKeys files, ∀ x ∈ g k, pathParent x.path = k := by
    intro k hk x hx
    have hx' : x ∈ sortBySize (folderGroup files k) :=
      (sizeGreedy_sublist share _ 0).mem hx
    rw [sortBySize_mem] at hx'
    have := List.mem_filter.mp hx'
    simpa using this.2
  refine ⟨(folderKeys files).flatMap g,
    select_by_total_size_balanced_eq files ts shuffle hkeys, ?_, ?_⟩
  · intro k hk
    rw [filter_flatMap_group _ g (folderKeys_nodup files) hg k hk]
    constructor
    · have hsum := sizeGreedy_sum share (sortBySize (folderGroup files k)) 0
      rw [hmax] at hsum
      simp only [hgdef]
      omega
    · simp only [hgdef]
      exact (sortBySize_pairwise _).sublist (sizeGreedy_sublist share _ 0)
  · rw [sum_map_flatMap]
    have hb : ∀ x ∈ (folderKeys files).map
        (fun k => ((g k).map (fun fd => (fd.size : Int))).sum), x ≤ share := by
      intro x hx
      rw [List.mem_map] at hx
      obtain ⟨k, hk, rfl⟩ := hx
      simp only [hgdef]
      have hsum := sizeGreedy_sum share (sortBySize (folderGroup files k)) 0
      rw [hmax] at hsum
      omega
    have htot := sum_le_length_mul _ hb
    rw [List.length_map, ← hN] at htot
    have hfd : (N : Int) * share + (parse_size ts).fmod N = parse_size ts := by
      rw [hshare]
      exact Int.fdiv_add_fmod _ _
    have hfm : 0 ≤ (parse_size ts).fmod N :=
      Int.fmod_nonneg' _ (by exact_mod_cast hNpos)
    omega

/-- Witness for C6: the theorem applied to two concrete entries in two
parent folders with target "10". -/
theorem C6_balanced_by_size_witness :
    ([exSrcA, exOtherA] ≠ ([] : List FileData)) ∧ 0 ≤ parse_size "10" ∧
    (∃ sel, select_by_total_size [exSrcA, exOtherA] "10" true id = some sel ∧
      (∀ k ∈ folderKeys [exSrcA, exOtherA],
        ((sel.filter (fun fd => decide (pathParent fd.path = k))).map
            (fun fd => (fd.size : Int))).sum ≤
          Int.fdiv (parse_size "10") ((folderKeys [exSrcA, exOtherA]).length) ∧
        (sel.filter (fun fd => decide (pathParent fd.path = k))).Pairwise
          (fun a b => a.size ≤ b.size)) ∧
      (sel.map (fun fd => (fd.size : Int))).sum ≤ parse_size "10") :=
  ⟨by decide, by decide,
   C6_balanced_by_size_bounds [exSrcA, exOtherA] "10" id (by decide) (by decide)⟩

/-- C6 counterexample: with recursively scanned nested entries the
divisor is not the number of given source directories.  Both entries lie
under the single source directory `s`, yet the code forms two
parent-folder groups (`s/sub1` and `s/sub2`) and divides the 12-byte
target by 2, giving each group a 6-byte share: it selects only the 4-byte
file.  Dividing by the one source directory as the claim states — share
12, ascending greedy within the directory — would select both files, so
the outcomes differ. -/
theorem C6_source_directory_divisor_fails :
    (folderKeys [exNest1, exNest2]).length = 2 ∧
    List.length [(["s"] : MPath)] = 1 ∧
    select_by_total_size [exNest1, exNest2] "12" true id = some [exNest1] ∧
    select_by_total_size_claim [["s"]] [exNest1, exNest2] "12" =
      [exNest1, exNest2] ∧
    select_by_total_size [exNest1, exNest2] "12" true id ≠
      some (select_by_total_size_claim [["s"]] [exNest1, exNest2] "12") := by
  decide

/-- C7 (amended): every scanned entry's media type is a pure function of
its lowercased extension, which is always one of the known media
extensions: the six extensions of the image set map to "image", the
seven of the video set to "video", and the remaining five retained
extensions (gif, svg, ico, heic, heif) to "other" — never to "unknown",
since the embedded metadata computation cannot raise. -/
theorem C7_media_type_from_extension (listing : List RawFile) :
    ∀ fd ∈ scanListing listing,
      fd.extension ∈ media_extensions ∧
      (fd.ftype = "image" ↔ fd.extension ∈ imageExts) ∧
      (fd.ftype = "video" ↔ fd.extension ∈ videoExts) ∧
      (fd.ftype = "other" ↔
        fd.extension ∈ [".gif", ".svg", ".ico", ".heic", ".heif"]) ∧
      fd.ftype ≠ "unknown" := by
  intro fd hfd
  simp only [scanListing, List.mem_map, List.mem_filter, decide_eq_true_eq] at hfd
  obtain ⟨r, ⟨_, he⟩, rfl⟩ := hfd
  simp only [get_media_metadata]
  simp only [media_extensions, List.mem_cons, List.not_mem_nil, or_false] at he
  rcases he with h|h|h|h|h|h|h|h|h|h|h|h|h|h|h|h|h|h <;> rw [h] <;> decide

/-- Witness for C7 (amended): the theorem applied to the concrete scan of
a gif file. -/
theorem C7_media_type_from_extension_witness :
    (⟨["s", "a.gif"], 1, 0, 0, ".gif", "other"⟩ : FileData) ∈
        scanListing [exGifRaw] ∧
    ((⟨["s", "a.gif"], 1, 0, 0, ".gif", "other"⟩ : FileData).extension ∈
        media_extensions ∧
      ((⟨["s", "a.gif"], 1, 0, 0, ".gif", "other"⟩ : FileData).ftype = "image" ↔
        (⟨["s", "a.gif"], 1, 0, 0, ".gif", "other"⟩ : FileData).extension ∈
          imageExts) ∧
      ((⟨["s", "a.gif"], 1, 0, 0, ".gif", "other"⟩ : FileData).ftype = "video" ↔
        (⟨["s", "a.gif"], 1, 0, 0, ".gif", "other"⟩ : FileData).extension ∈
          videoExts) ∧
      ((⟨["s", "a.gif"], 1, 0, 0, ".gif", "other"⟩ : FileData).ftype = "other" ↔
        (⟨["s", "a.gif"], 1, 0, 0, ".gif", "other"⟩ : FileData).extension ∈
          [".gif", ".svg", ".ico", ".heic", ".heif"]) ∧
      (⟨["s", "a.gif"], 1, 0, 0, ".gif", "other"⟩ : FileData).ftype ≠ "unknown") :=
  ⟨by decide, C7_media_type_from_extension [exGifRaw] _ (by decide)⟩

/-- C7 counterexample: `a.gif` passes the extension filter of the scan
(gif is a known media extension) but `get_media_metadata` tests gif in
neither its image nor its video set, so the scanned entry is classified
"other", not "image". -/
theorem C7_gif_scanned_as_other :
    (scanListing [exGifRaw]).map FileData.ftype = ["other"] ∧
    ("other" : String) ≠ "image" := by
  decide

/-- `apply_filters` with the min-size key erased, unfolded; holds by
definitional unfolding since no other stanza reads `min_size`. -/
theorem apply_filters_erase_min (entries : List FileData) (f : Filters) :
    apply_filters entries (some { f with min_size := none }) =
      (match dateFromStep f (maxSizeStep f entries) with
       | .error e => .error e
       | .ok l3 =>
         match dateToStep f l3 with
         | .error e => .error e
         | .ok l4 => .ok (mediaTypeStep f (fileTypeStep f l4))) := rfl

/-- C9 (amended): malformed size strings parse to 0 with a warning, never
a fatal error.  A malformed MIN-size filter therefore behaves exactly as
if the constraint were absent (every size is at least 0); a malformed
MAX-size filter does not — it keeps exactly the zero-size entries of the
result with the constraint absent. -/
theorem C9_malformed_size_filter_behavior :
    (∀ (entries : List FileData) (f : Filters) (s : String),
        f.min_size = some s → s ≠ "" → parse_size_core s = none →
        apply_filters entries (some f) =
          apply_filters entries (some { f with min_size := none })) ∧
    (∀ (entries : List FileData) (f : Filters) (s : String),
        f.max_size = some s → s ≠ "" → parse_size_core s = none →
        apply_filters entries (some f) =
          Except.map (List.filter (fun fd => decide ((fd.size : Int) ≤ 0)))
            (apply_filters entries (some { f with max_size := none }))) := by
  constructor
  · intro entries f s hmin hne hcore
    have lhs_eq : apply_filters entries (some f) =
        (match dateFromStep f (maxSizeStep f (minSizeStep f entries)) with
         | .error e => .error e
         | .ok l3 =>
           match dateToStep f l3 with
           | .error e => .error e
           | .ok l4 => .ok (mediaTypeStep f (fileTypeStep f l4))) := rfl
    rw [lhs_eq, apply_filters_erase_min, minSizeStep_of_malformed hmin hne hcore]
  · intro entries f s hmax hne hcore
    have lhs_eq : apply_filters entries (some f) =
        (match dateFromStep f (maxSizeStep f (minSizeStep f entries)) with
         | .error e => .error e
         | .ok l3 =>
           match dateToStep f l3 with
           | .error e => .error e
           | .ok l4 => .ok (mediaTypeStep f (fileTypeStep f l4))) := rfl
    rw [lhs_eq, apply_filters_erase_max,
      maxSizeStep_of_malformed hmax hne hcore, dateFromStep_filter]
    cases h : dateFromStep f (minSizeStep f entries) with
    | error e => simp [Except.map]
    | ok l3 =>
      simp only [Except.map]
      rw [dateToStep_filter]
      cases h2 : dateToStep f l3 with
      | error e => simp [Except.map]
      | ok l4 =>
        simp only [Except.map]
        rw [fileTypeStep_filter, mediaTypeStep_filter]

/-- Witness for C9: both parts applied at a concrete malformed size
string and entry list. -/
theorem C9_malformed_size_filter_witness :
    (({ min_size := some "oops" } : Filters).min_size = some "oops" ∧
      "oops" ≠ "" ∧ parse_size_core "oops" = none) ∧
    apply_filters [exSrcA] (some { min_size := some "oops" }) =
      apply_filters [exSrcA]
        (some { ({ min_size := some "oops" } : Filters) with min_size := none }) ∧
    apply_filters [exSrcA] (some { max_size := some "oops" }) =
      Except.map (List.filter (fun fd => decide ((fd.size : Int) ≤ 0)))
        (apply_filters [exSrcA]
          (some { ({ max_size := some "oops" } : Filters) with max_size := none })) :=
  ⟨⟨rfl, by decide, by decide⟩,
   C9_malformed_size_filter_behavior.1 [exSrcA] _ "oops" rfl (by decide) (by decide),
   C9_malformed_size_filter_behavior.2 [exSrcA] _ "oops" rfl (by decide) (by decide)⟩

/-- C8: with dry-run set, the operation performs no destination-state
writes at all: every side effect of the whole run is a scan-cache write.
In particular no destination directory is created, no file is copied and
neither a selection log nor a resume file is written (discovery,
filtering and selection still happen, and the return value is the
projected selection count). -/
theorem C8_dry_run_no_destination_writes (source_folders : List MPath)
    (folderFS : MPath → FolderFS) (destination_folder : MPath)
    (dest_exists : Bool) (disk : List MPath)
    (resume_loaded : Option (List MPath)) (num_files : Nat)
    (target_size : Option String) (balanced preserve_structure : Bool)
    (filters : Option Filters) (resume_file : Option MPath) (use_cache : Bool)
    (sample : List FileData → Nat → List FileData)
    (shuffle : List FileData → List FileData) :
    ∀ e ∈ (randomly_select_and_copy_files source_folders folderFS
        destination_folder dest_exists disk resume_loaded num_files target_size
        balanced true preserve_structure filters resume_file use_cache sample
        shuffle).2,
      ∃ g, e = Effect.cacheWrite g := by
  intro e he
  rw [dry_run_effects] at he
  rw [List.mem_flatten] at he
  obtain ⟨l, hl, hel⟩ := he
  rw [List.mem_map] at hl
  obtain ⟨scan, hscan, rfl⟩ := hl
  rw [List.mem_map] at hscan
  obtain ⟨f, _, rfl⟩ := hscan
  exact collect_effects_cacheWrite (folderFS f) f filters use_cache e hel

/-- Witness for C8: a concrete dry run over one source folder containing
one image — the only effect is that folder's cache write. -/
theorem C8_dry_run_witness :
    (randomly_select_and_copy_files [["src"]] (fun _ => exFS)
        ["dst"] false [] none 5 none false true false none none true
        takeSample id).2 = [Effect.cacheWrite ["src"]] ∧
    ∀ e ∈ (randomly_select_and_copy_files [["src"]] (fun _ => exFS)
        ["dst"] false [] none 5 none false true false none none true
        takeSample id).2,
      ∃ g, e = Effect.cacheWrite g :=
  ⟨by decide,
   C8_dry_run_no_destination_writes [["src"]] (fun _ => exFS)
     ["dst"] false [] none 5 none false false none none true takeSample id⟩

/-- C10: the divisor of the balanced-by-size split is the number of
parent-folder groups of the input entries: it is at least 1 for every
non-empty entry list (so the division cannot fault and the selection
succeeds), on the empty list the division is by zero (the Python
ZeroDivisionError, modelled as `none`), and the top-level operation never
reaches that fault because it returns early when no media files were
found. -/
theorem C10_divisor_safety :
    (∀ files : List FileData, files ≠ [] →
      1 ≤ (folderKeys files).length ∧
      ∀ (ts : String) (shuffle : List FileData → List FileData),
        ∃ sel, select_by_total_size files ts true shuffle = some sel) ∧
    (∀ (ts : String) (shuffle : List FileData → List FileData),
      select_by_total_size [] ts true shuffle = none) ∧
    (∀ (source_folders : List MPath) (folderFS : MPath → FolderFS)
        (destination_folder : MPath) (dest_exists : Bool) (disk : List MPath)
        (resume_loaded : Option (List MPath)) (num_files : Nat)
        (target_size : Option String)
        (balanced dry_run preserve_structure : Bool)
        (filters : Option Filters) (resume_file : Option MPath)
        (use_cache : Bool) (sample : List FileData → Nat → List FileData)
        (shuffle : List FileData → List FileData),
      (randomly_select_and_copy_files source_folders folderFS
          destination_folder dest_exists disk resume_loaded num_files
          target_size balanced dry_run preserve_structure filters resume_file
          use_cache sample shuffle).1 ≠ Except.error RunError.divByZero) := by
  refine ⟨?_, ?_, ?_⟩
  · intro files hne
    refine ⟨List.length_pos.mpr (folderKeys_ne_nil hne), ?_⟩
    intro ts shuffle
    exact Option.isSome_iff_exists.mp
      (select_by_total_size_isSome files ts true shuffle hne)
  · intro ts shuffle
    simp [select_by_total_size, folderKeys]
  · intro sf ffs df dex disk rl n ts bal dry p flt rfo uc sample shuffle
    simp only [randomly_select_and_copy_files]
    split
    · simp
    · split
      · simp
      · rename_i hlen
        have hne : (List.map (fun s =>
            match s.1 with | .ok l => l | .error _ => ([] : List FileData))
            (sf.map (fun f =>
              collect_media_files_optimized (ffs f) f flt uc))).flatten ≠ [] := by
          intro hn
          exact hlen (by rw [hn]; rfl)
        split
        · rename_i e heq
          exfalso
          cases hts : ts with
          | none =>
            rw [hts] at heq
            simp only at heq
            split at heq <;> simp at heq
          | some s =>
            rw [hts] at heq
            simp only at heq
            cases hsel : select_by_total_size _ s bal shuffle with
            | none =>
              have := select_by_total_size_isSome _ s bal shuffle hne
              rw [hsel] at this
              simp at this
            | some sel =>
              rw [hsel] at heq
              simp at heq
        · split
          · simp
          · simp

/-- Witness for C10: the divisor and non-faulting selection at a concrete
non-empty entry list. -/
theorem C10_divisor_safety_witness :
    (1 ≤ (folderKeys [exSrcA, exOtherA]).length ∧
      ∀ (ts : String) (shuffle : List FileData → List FileData),
        ∃ sel, select_by_total_size [exSrcA, exOtherA] ts true shuffle =
          some sel) ∧
    select_by_total_size [] "1GB" true id = none :=
  ⟨C10_divisor_safety.1 [exSrcA, exOtherA] (by decide),
   C10_divisor_safety.2.1 "1GB" id⟩

/-- C9 counterexample: a malformed max-size filter is not treated as
absent — `parse_size` returns 0 for it, so the max filter keeps only
zero-size entries and drops everything else, while the same entries with
the constraint absent all survive. -/
theorem C9_malformed_max_size_drops_entries :
    apply_filters [exSrcA] (some { max_size := some "banana" }) = .ok [] ∧
    apply_filters [exSrcA] (some {}) = .ok [exSrcA] ∧
    (Except.ok [] : Except Unit (List FileData)) ≠ .ok [exSrcA] := by
  decide

end SMS
